import Mathlib

/-!
Verification of the kana-dojo resource query engine and stroke serializer.

The development shallowly embeds the TypeScript sources:
* `src/features/Resources/lib/filters.ts` (predicate filters and the combinator),
* the resource search utilities (`searchResources`, `resourceMatchesQuery`),
* the resource validator (`validateResource`) together with the fixed
  enumerations from the Resources type module,
* `src/features/Calligraphy/services/strokeSerializer.ts` (serialize /
  deserialize of stroke data, via an executable model of the JSON text layer).

JavaScript strings are modelled as Lean `String` (lists of Unicode scalar
values); `String.prototype.toLowerCase` / `toUpperCase` are modelled by the
per-character basic-Latin case maps (`Char.toLower` / `Char.toUpper`), and
`String.prototype.trim` by stripping the standard whitespace characters from
both ends.  JavaScript numbers reaching the embedded code originate from JSON
data, so they are modelled as rational numbers (JSON text has no NaN or
infinity literal).
-/

-- ===========================================================================
-- String model: case mapping, trim, substring containment
-- ===========================================================================

/-- `String.prototype.toLowerCase` restricted to the per-character basic
Latin mapping: faithful exactly on basic-Latin text.  The full mapping (on
the Latin-1 repertoire) is `jsLowerFull` below; the two are proved to agree
on basic-Latin strings. -/
def jsLower (s : String) : String := ⟨s.data.map Char.toLower⟩

/-- `String.prototype.toUpperCase` restricted to the per-character basic
Latin mapping: faithful exactly on basic-Latin text.  The full mapping,
under which a character can uppercase to several (`ß` to `SS`), is
`jsUpperFull` below. -/
def jsUpper (s : String) : String := ⟨s.data.map Char.toUpper⟩

/-- The basic-Latin whitespace characters removed by
`String.prototype.trim` (tab, line feed, vertical tab, form feed, carriage
return, space); the full class with the Unicode whitespace is
`isJsSpaceFull` below. -/
def isJsSpace (c : Char) : Bool :=
  c.toNat = 9 || c.toNat = 10 || c.toNat = 11 || c.toNat = 12 ||
  c.toNat = 13 || c.toNat = 32

/-- `String.prototype.trim` over the basic-Latin whitespace class: faithful
exactly on basic-Latin text (`jsTrimFull` below is the full model). -/
def jsTrim (s : String) : String :=
  ⟨((s.data.dropWhile isJsSpace).reverse.dropWhile isJsSpace).reverse⟩

/-- The full class of code points `String.prototype.trim` removes: the
ECMA-262 WhiteSpace production (tab, vertical tab, form feed, space,
no-break space, zero-width no-break space and the Unicode space
separators) together with the LineTerminator production (line feed,
carriage return, line separator, paragraph separator). -/
def isJsSpaceFull (c : Char) : Bool :=
  c.toNat = 0x9 || c.toNat = 0xA || c.toNat = 0xB || c.toNat = 0xC ||
  c.toNat = 0xD || c.toNat = 0x20 || c.toNat = 0xA0 || c.toNat = 0x1680 ||
  (0x2000 ≤ c.toNat && c.toNat ≤ 0x200A) || c.toNat = 0x2028 ||
  c.toNat = 0x2029 || c.toNat = 0x202F || c.toNat = 0x205F ||
  c.toNat = 0x3000 || c.toNat = 0xFEFF

/-- `String.prototype.trim` over the full whitespace class. -/
def jsTrimFull (s : String) : String :=
  ⟨((s.data.dropWhile isJsSpaceFull).reverse.dropWhile
    isJsSpaceFull).reverse⟩

/-- One character of `String.prototype.toLowerCase` on the basic Latin and
Latin-1 repertoire (the Unicode full lowercase mapping; on this repertoire
every character lowercases to a single character: `A`–`Z` and `À`–`Þ`
except `×` shift down by 32, the rest are fixed). -/
def charLowerFull (c : Char) : List Char :=
  if c.toNat ≥ 65 ∧ c.toNat ≤ 90 then [Char.ofNat (c.toNat + 32)]
  else if 0xC0 ≤ c.toNat ∧ c.toNat ≤ 0xDE ∧ c.toNat ≠ 0xD7 then
    [Char.ofNat (c.toNat + 32)]
  else [c]

/-- One character of `String.prototype.toUpperCase` on the basic Latin and
Latin-1 repertoire: the Unicode full uppercase mapping.  `a`–`z` and
`à`–`þ` except `÷` shift up by 32 — with three exceptions: `ß` (U+00DF)
uppercases to the two characters `SS`, `µ` (U+00B5) to the Greek capital
mu (U+039C), and `ÿ` (U+00FF) to `Ÿ` (U+0178). -/
def charUpperFull (c : Char) : List Char :=
  if c.toNat ≥ 97 ∧ c.toNat ≤ 122 then [Char.ofNat (c.toNat - 32)]
  else if c.toNat = 0xDF then ['S', 'S']
  else if c.toNat = 0xB5 then [Char.ofNat 0x39C]
  else if c.toNat = 0xFF then [Char.ofNat 0x178]
  else if 0xE0 ≤ c.toNat ∧ c.toNat ≤ 0xFE ∧ c.toNat ≠ 0xF7 then
    [Char.ofNat (c.toNat - 32)]
  else [c]

/-- `String.prototype.toLowerCase` on the basic Latin / Latin-1
repertoire. -/
def jsLowerFull (s : String) : String :=
  ⟨(s.data.map charLowerFull).flatten⟩

/-- `String.prototype.toUpperCase` on the basic Latin / Latin-1
repertoire. -/
def jsUpperFull (s : String) : String :=
  ⟨(s.data.map charUpperFull).flatten⟩

/-- Model of `String.prototype.includes`: the needle occurs contiguously in
the haystack. -/
def jsIncludes (hay needle : String) : Bool :=
  decide (needle.data <:+: hay.data)

/-- Truthiness of a JavaScript string: every string except `""` is truthy. -/
def jsTruthy (s : String) : Bool := !s.data.isEmpty

-- ===========================================================================
-- Data model: `Resource` and `ActiveFilters`
-- (src/features/Resources: types module)
-- ===========================================================================

/-- One catalogue entry, after the `Resource` interface.  The category,
difficulty, price-type and platform unions are string unions in the source
and are modelled as strings; their fixed enumerations appear below. -/
structure Resource where
  id : String
  name : String
  nameJa : Option String
  description : String
  descriptionLong : Option String
  category : String
  subcategory : String
  tags : List String
  difficulty : String
  priceType : String
  platforms : List String
  url : String
  rating : Option Rat
  featured : Option Bool
deriving DecidableEq, Repr

/-- The `ActiveFilters` interface: four independent selections. -/
structure ActiveFilters where
  difficulty : List String
  priceType : List String
  platforms : List String
  search : String
deriving DecidableEq, Repr

/-- `DIFFICULTY_LEVELS` from the Resources type module. -/
def DIFFICULTY_LEVELS : List String :=
  ["beginner", "intermediate", "advanced", "all-levels"]

/-- `PRICE_TYPES` from the Resources type module. -/
def PRICE_TYPES : List String :=
  ["free", "freemium", "paid", "subscription"]

/-- `PLATFORMS` from the Resources type module. -/
def PLATFORMS : List String :=
  ["web", "ios", "android", "windows", "macos", "linux", "physical",
   "browser-extension", "api"]

/-- `CATEGORY_IDS` from the Resources type module. -/
def CATEGORY_IDS : List String :=
  ["apps", "websites", "textbooks", "youtube", "podcasts", "games", "jlpt",
   "reading", "listening", "speaking", "writing", "grammar", "vocabulary",
   "kanji", "immersion", "community"]

-- ===========================================================================
-- Predicate filters and the combinator
-- (src/features/Resources/lib/filters.ts)
-- ===========================================================================

/-- `filterByCategory`: keep resources whose `category` equals the argument. -/
def filterByCategory (resources : List Resource) (category : String) :
    List Resource :=
  resources.filter fun resource => resource.category == category

/-- `filterBySubcategory`: keep resources whose `subcategory` equals the
argument. -/
def filterBySubcategory (resources : List Resource) (subcategory : String) :
    List Resource :=
  resources.filter fun resource => resource.subcategory == subcategory

/-- `filterByCategoryAndSubcategory`: conjunction of both equalities. -/
def filterByCategoryAndSubcategory (resources : List Resource)
    (category subcategory : String) : List Resource :=
  resources.filter fun resource =>
    resource.category == category && resource.subcategory == subcategory

/-- `filterByDifficulty`: empty selector returns the input unchanged,
otherwise keep resources whose difficulty is a member of the selector
(`Array.prototype.includes`). -/
def filterByDifficulty (resources : List Resource)
    (difficulties : List String) : List Resource :=
  if difficulties.length = 0 then resources
  else resources.filter fun resource => difficulties.contains resource.difficulty

/-- `filterByPriceType`: empty selector returns the input unchanged,
otherwise keep resources whose price type is a member of the selector. -/
def filterByPriceType (resources : List Resource)
    (priceTypes : List String) : List Resource :=
  if priceTypes.length = 0 then resources
  else resources.filter fun resource => priceTypes.contains resource.priceType

/-- `filterByPlatform`: empty selector returns the input unchanged, otherwise
keep resources having at least one platform in the selector
(`Array.prototype.some`). -/
def filterByPlatform (resources : List Resource)
    (platforms : List String) : List Resource :=
  if platforms.length = 0 then resources
  else resources.filter fun resource =>
    resource.platforms.any fun platform => platforms.contains platform

/-- `combineFilters`: apply the difficulty, price-type and platform filters in
sequence, each only when its selector is non-empty. -/
def combineFilters (resources : List Resource) (filters : ActiveFilters) :
    List Resource :=
  let result := resources
  let result :=
    if filters.difficulty.length > 0 then
      filterByDifficulty result filters.difficulty
    else result
  let result :=
    if filters.priceType.length > 0 then
      filterByPriceType result filters.priceType
    else result
  let result :=
    if filters.platforms.length > 0 then
      filterByPlatform result filters.platforms
    else result
  result

-- ===========================================================================
-- Search (resource search utilities)
-- ===========================================================================

/-- The filter body of `searchResources`: the sequence of early-return
checks against name, Japanese name, description, long description and tags.
The optional fields are guarded by JavaScript truthiness
(`resource.nameJa && ...`). -/
def searchResourcesPred (trimmedQuery : String) (resource : Resource) : Bool :=
  if jsIncludes (jsLower resource.name) trimmedQuery then true
  else if (match resource.nameJa with
           | some s => jsTruthy s && jsIncludes (jsLower s) trimmedQuery
           | none => false) then true
  else if jsIncludes (jsLower resource.description) trimmedQuery then true
  else if (match resource.descriptionLong with
           | some s => jsTruthy s && jsIncludes (jsLower s) trimmedQuery
           | none => false) then true
  else if resource.tags.any (fun tag => jsIncludes (jsLower tag) trimmedQuery)
    then true
  else false

/-- `searchResources`: trim and lowercase the query; an empty trimmed query
returns all resources, otherwise filter by the substring checks. -/
def searchResources (resources : List Resource) (query : String) :
    List Resource :=
  let trimmedQuery := jsLower (jsTrim query)
  if trimmedQuery.data.length = 0 then resources
  else resources.filter (searchResourcesPred trimmedQuery)

/-- `resourceMatchesQuery`: the per-record matcher, written in the source as
its own sequence of early returns. -/
def resourceMatchesQuery (resource : Resource) (query : String) : Bool :=
  let trimmedQuery := jsLower (jsTrim query)
  if trimmedQuery.data.length = 0 then true
  else if jsIncludes (jsLower resource.name) trimmedQuery then true
  else if (match resource.nameJa with
           | some s => jsTruthy s && jsIncludes (jsLower s) trimmedQuery
           | none => false) then true
  else if jsIncludes (jsLower resource.description) trimmedQuery then true
  else if (match resource.descriptionLong with
           | some s => jsTruthy s && jsIncludes (jsLower s) trimmedQuery
           | none => false) then true
  else if resource.tags.any (fun tag => jsIncludes (jsLower tag) trimmedQuery)
    then true
  else false

/-- The filter body of `searchResources` over the full string model — the
same source code, with `toLowerCase` read as the full case mapping. -/
def searchResourcesPredFull (trimmedQuery : String) (resource : Resource) :
    Bool :=
  if jsIncludes (jsLowerFull resource.name) trimmedQuery then true
  else if (match resource.nameJa with
           | some s => jsTruthy s && jsIncludes (jsLowerFull s) trimmedQuery
           | none => false) then true
  else if jsIncludes (jsLowerFull resource.description) trimmedQuery then
    true
  else if (match resource.descriptionLong with
           | some s => jsTruthy s && jsIncludes (jsLowerFull s) trimmedQuery
           | none => false) then true
  else if resource.tags.any
      (fun tag => jsIncludes (jsLowerFull tag) trimmedQuery) then true
  else false

/-- `searchResources` over the full string model — the same source code,
with `trim` and `toLowerCase` read as the full whitespace class and case
mapping. -/
def searchResourcesFull (resources : List Resource) (query : String) :
    List Resource :=
  let trimmedQuery := jsLowerFull (jsTrimFull query)
  if trimmedQuery.data.length = 0 then resources
  else resources.filter (searchResourcesPredFull trimmedQuery)

-- ===========================================================================
-- Count aggregator
-- (src/features/Resources/lib/counts.ts is not part of the sources; its
-- behaviour is fixed by the spec and by its property tests under
-- src/features/Resources/__tests__/counts.property.test.ts)
-- ===========================================================================

/-- Increment the entry for key `k` in an association list of counters,
appending a fresh entry when the key is absent — the usual `Map`-building
loop. -/
def bumpCount (m : List (String × Nat)) (k : String) : List (String × Nat) :=
  match m with
  | [] => [(k, 1)]
  | (k', v) :: rest =>
    if k' == k then (k', v + 1) :: rest else (k', v) :: bumpCount rest k

/-- Modelled from the spec: `getCategoryResourceCounts(records)` of the
missing `lib/counts.ts` — "mapping from category id to the count of records
with that category".  Built by one pass over the records, counting each
record under its category. -/
def getCategoryResourceCounts (records : List Resource) :
    List (String × Nat) :=
  records.foldl (fun m r => bumpCount m r.category) []

/-- Modelled from the spec: `getResourceCountForCategory(records, c)` of the
missing `lib/counts.ts` — the count of records whose category is `c`
(its property test compares it against exactly this manual filter count). -/
def getResourceCountForCategory (records : List Resource) (c : String) : Nat :=
  (records.filter fun r => r.category == c).length

/-- Modelled from the spec: `getSubcategoryResourceCounts(records, c)` of the
missing `lib/counts.ts` — "mapping scoped to one category": the records of
category `c`, counted by subcategory. -/
def getSubcategoryResourceCounts (records : List Resource) (c : String) :
    List (String × Nat) :=
  (records.filter fun r => r.category == c).foldl
    (fun m r => bumpCount m r.subcategory) []

/-- Sum of the values of a counter mapping. -/
def countValuesSum (m : List (String × Nat)) : Nat :=
  (m.map Prod.snd).sum

-- ===========================================================================
-- Decimal numeral text (the JavaScript / JSON number layer)
-- ===========================================================================

/-- Character of one decimal digit (`0`–`9` for `d < 10`). -/
def digitCharOf (d : Nat) : Char := Char.ofNat (48 + d)

/-- Big-endian decimal digits of a natural number; fuel-guarded division so
that concrete values reduce in the kernel.  Called with `fuel = n`. -/
def natCharsAux : Nat → Nat → List Char
  | 0, _ => []
  | _ + 1, 0 => []
  | fuel + 1, n => natCharsAux fuel (n / 10) ++ [digitCharOf (n % 10)]

/-- Decimal numeral of a natural number (`0` prints as `"0"`). -/
def natToChars (n : Nat) : List Char :=
  if n = 0 then ['0'] else natCharsAux n n

/-- Decimal numeral of a natural number, as a string. -/
def natToString (n : Nat) : String := ⟨natToChars n⟩

/-- Is the character a decimal digit? -/
def isDigitChar (c : Char) : Bool := 48 ≤ c.toNat && c.toNat ≤ 57

/-- Read a maximal run of decimal digits, returning the accumulated value,
the number of digits read and the remaining input. -/
def readDigits : Nat → Nat → List Char → Nat × Nat × List Char
  | acc, k, [] => (acc, k, [])
  | acc, k, c :: cs =>
    if isDigitChar c then readDigits (acc * 10 + (c.toNat - 48)) (k + 1) cs
    else (acc, k, c :: cs)

/-- Strip all factors `p` from `n` (fuel-guarded): returns `(k, m)` with
`n = p ^ k * m`.  Called with `fuel = n`. -/
def stripFactorAux : Nat → Nat → Nat → Nat × Nat
  | 0, _, n => (0, n)
  | fuel + 1, p, n =>
    if 2 ≤ p ∧ n ≠ 0 ∧ n % p = 0 then
      let r := stripFactorAux fuel p (n / p)
      (r.1 + 1, r.2)
    else (0, n)

/-- Strip all factors `p` from `n`. -/
def stripFactor (p n : Nat) : Nat × Nat := stripFactorAux n p n

/-- The least decimal exponent of a rational: `some k` when `q` has a finite
decimal expansion with `k` fractional digits (its denominator divides
`10 ^ k`), `none` otherwise.  Every IEEE double is of this form, so this
captures exactly the numbers a JavaScript runtime can hold. -/
def decExp (q : Rat) : Option Nat :=
  let t := stripFactor 2 q.den
  let f := stripFactor 5 t.2
  if f.2 = 1 then some (max t.1 f.1) else none

/-- Does the rational have a finite decimal expansion? -/
def decimalRat (q : Rat) : Bool := (decExp q).isSome

/-- Decimal numeral of a rational with a finite decimal expansion, modelling
the (shortest, exponent-free) way a JavaScript runtime prints such a number.
Other rationals do not arise from JavaScript numbers; they print as `"0"`. -/
def ratToChars (q : Rat) : List Char :=
  match decExp q with
  | some k =>
    let m : Int := Int.ediv (q.num * (10 : Int) ^ k) (q.den : Int)
    let sign : List Char := if m < 0 then ['-'] else []
    let a := m.natAbs
    if k = 0 then sign ++ natToChars a
    else
      let frac := natToChars (a % 10 ^ k)
      sign ++ natToChars (a / 10 ^ k) ++
        '.' :: (List.replicate (k - frac.length) '0' ++ frac)
  | none => ['0']

/-- The body of the JSON number parser after sign detection: integer digits
and an optional fraction (the printer never emits an exponent and the
exponent form is not modelled). -/
def parseNumBody (sgn : Bool) (cs : List Char) : Option (Rat × List Char) :=
  match cs with
  | c :: _ =>
    if isDigitChar c then
      let ip := readDigits 0 0 cs
      let fp : Nat × Nat × List Char :=
        match ip.2.2 with
        | c' :: rest1 =>
          if c' = '.' then
            match rest1 with
            | d :: rest2 =>
              if isDigitChar d then
                let fr := readDigits 0 0 (d :: rest2)
                (ip.1 * 10 ^ fr.2.1 + fr.1, fr.2.1, fr.2.2)
              else (ip.1, 0, ip.2.2)
            | [] => (ip.1, 0, ip.2.2)
          else (ip.1, 0, ip.2.2)
        | [] => (ip.1, 0, ip.2.2)
      some (Rat.divInt (if sgn then -(fp.1 : Int) else (fp.1 : Int))
              ((10 : Int) ^ fp.2.1), fp.2.2)
    else none
  | [] => none

/-- Parse a JSON number: optional minus sign, then integer digits and an
optional fraction. -/
def parseNum (cs : List Char) : Option (Rat × List Char) :=
  match cs with
  | c :: rest =>
    if c = '-' then parseNumBody true rest else parseNumBody false (c :: rest)
  | [] => parseNumBody false []

-- ===========================================================================
-- JavaScript values and the resource validator (Resource Validation module)
-- ===========================================================================

/-- A JavaScript value as far as the validator can observe it: the JSON
values plus `undefined`.  Numbers are rationals, as in the rest of the
development. -/
inductive JsValue where
  | undef
  | null
  | bool (b : Bool)
  | num (q : Rat)
  | str (s : String)
  | arr (elems : List JsValue)
  | obj (fields : List (String × JsValue))
deriving Repr

/-- Property lookup on an object's own fields. -/
def lookupField : List (String × JsValue) → String → Option JsValue
  | [], _ => none
  | (k, v) :: rest, key => if k == key then some v else lookupField rest key

/-- `value[key]`: `none` models `undefined` (absent property, or lookup on a
non-object).  Arrays carry no string-keyed own properties in this model. -/
def JsValue.get : JsValue → String → Option JsValue
  | .obj fields, key => lookupField fields key
  | _, _ => none

/-- `typeof v === 'object'` together with `v !== null`: true exactly for
objects and arrays (`typeof null` is `'object'` but the source checks
`null` separately first). -/
def JsValue.isObjectLike : JsValue → Bool
  | .obj _ => true
  | .arr _ => true
  | _ => false

/-- `isNonEmptyString` from the source, applied to a property lookup:
`typeof value === 'string' && value.trim().length > 0`. -/
def isNonEmptyStringProp : Option JsValue → Bool
  | some (.str s) => jsTruthy (jsTrim s)
  | _ => false

/-- `isNonEmptyArray` from the source, applied to a property lookup. -/
def isNonEmptyArrayProp : Option JsValue → Bool
  | some (.arr xs) => !xs.isEmpty
  | _ => false

/-- The string held by a property known to be a string (used after an
`isNonEmptyString` guard). -/
def strProp : Option JsValue → String
  | some (.str s) => s
  | _ => ""

/-- `String(v)`: the display of a value inside a template literal. -/
def jsDisplay : JsValue → String
  | .undef => "undefined"
  | .null => "null"
  | .bool true => "true"
  | .bool false => "false"
  | .num q => ⟨ratToChars q⟩
  | .str s => s
  | .arr xs => String.intercalate "," (xs.map fun x =>
      match x with
      | .str s => s
      | .num q => (⟨ratToChars q⟩ : String)
      | .bool true => "true"
      | .bool false => "false"
      | _ => "")
  | .obj _ => "[object Object]"

/-- `REQUIRED_RESOURCE_FIELDS` from the source. -/
def REQUIRED_RESOURCE_FIELDS : List String :=
  ["id", "name", "description", "category", "subcategory", "tags",
   "difficulty", "priceType", "platforms", "url"]

/-- The validator's result record. -/
structure ResourceValidationResult where
  success : Bool
  missingFields : List String
  invalidFields : List (String × String)
deriving DecidableEq, Repr

/-- A tag failing `typeof tag === 'string' && tag.trim().length > 0`. -/
def isBadTag : JsValue → Bool
  | .str s => !jsTruthy (jsTrim s)
  | _ => true

/-- A platforms entry failing
`typeof p === 'string' && PLATFORMS.includes(p)`. -/
def isBadPlatform : JsValue → Bool
  | .str s => !PLATFORMS.contains s
  | _ => true

/-- The body of `validateResource` past the null/undefined/non-object guard,
accumulating `missingFields` and `invalidFields` in the source's push
order. -/
def validateResourceObj (v : JsValue) : ResourceValidationResult :=
  let missingString := (["id", "name", "description", "subcategory",
    "url"]).filter fun f => !isNonEmptyStringProp (v.get f)
  let catMissing := !isNonEmptyStringProp (v.get "category")
  let catBad := !catMissing && !CATEGORY_IDS.contains (strProp (v.get "category"))
  let diffMissing := !isNonEmptyStringProp (v.get "difficulty")
  let diffBad := !diffMissing &&
    !DIFFICULTY_LEVELS.contains (strProp (v.get "difficulty"))
  let priceMissing := !isNonEmptyStringProp (v.get "priceType")
  let priceBad := !priceMissing &&
    !PRICE_TYPES.contains (strProp (v.get "priceType"))
  let tagsMissing := !isNonEmptyArrayProp (v.get "tags")
  let badTags :=
    match v.get "tags" with
    | some (.arr xs) => xs.filter isBadTag
    | _ => []
  let platMissing := !isNonEmptyArrayProp (v.get "platforms")
  let badPlats :=
    match v.get "platforms" with
    | some (.arr xs) => xs.filter isBadPlatform
    | _ => []
  let ratingBad :=
    match v.get "rating" with
    | none => false
    | some (.num q) => q < 1 || q > 5
    | some _ => true
  let featuredBad :=
    match v.get "featured" with
    | none => false
    | some (.bool _) => false
    | some _ => true
  let missingFields :=
    missingString ++
    (if catMissing then ["category"] else []) ++
    (if diffMissing then ["difficulty"] else []) ++
    (if priceMissing then ["priceType"] else []) ++
    (if tagsMissing then ["tags"] else []) ++
    (if platMissing then ["platforms"] else [])
  let invalidFields :=
    (if catBad then
      [("category", "Invalid category: " ++ strProp (v.get "category") ++
        ". Must be one of: " ++ String.intercalate ", " CATEGORY_IDS)]
     else []) ++
    (if diffBad then
      [("difficulty", "Invalid difficulty: " ++ strProp (v.get "difficulty") ++
        ". Must be one of: " ++ String.intercalate ", " DIFFICULTY_LEVELS)]
     else []) ++
    (if priceBad then
      [("priceType", "Invalid priceType: " ++ strProp (v.get "priceType") ++
        ". Must be one of: " ++ String.intercalate ", " PRICE_TYPES)]
     else []) ++
    (if !tagsMissing && !badTags.isEmpty then
      [("tags", "All tags must be non-empty strings")]
     else []) ++
    (if !platMissing && !badPlats.isEmpty then
      [("platforms", "Invalid platforms: " ++
        String.intercalate ", " (badPlats.map jsDisplay) ++
        ". Must be one of: " ++ String.intercalate ", " PLATFORMS)]
     else []) ++
    (if ratingBad then [("rating", "Rating must be a number between 1 and 5")]
     else []) ++
    (if featuredBad then [("featured", "Featured must be a boolean")] else [])
  { success := missingFields.isEmpty && invalidFields.isEmpty
    missingFields := missingFields
    invalidFields := invalidFields }

/-- `validateResource`: null, undefined and non-objects report every required
field as missing; objects (and arrays, which satisfy
`typeof resource === 'object'`) are checked field by field. -/
def validateResource (resource : JsValue) : ResourceValidationResult :=
  if resource.isObjectLike then validateResourceObj resource
  else
    { success := false
      missingFields := REQUIRED_RESOURCE_FIELDS
      invalidFields := [] }

-- ===========================================================================
-- JSON text (model of JSON.stringify / JSON.parse on the decimal fragment)
-- ===========================================================================

/-- A parsed JSON document. -/
inductive Json where
  | null
  | bool (b : Bool)
  | num (q : Rat)
  | str (s : String)
  | arr (elems : List Json)
  | obj (fields : List (String × Json))
deriving Repr

/-- Opening brace character. -/
def lbraceChar : Char := Char.ofNat 123

/-- Closing brace character. -/
def rbraceChar : Char := Char.ofNat 125

/-- Lowercase hexadecimal digit character (`d < 16`). -/
def hexCharOf (d : Nat) : Char :=
  if d < 10 then Char.ofNat (48 + d) else Char.ofNat (87 + d)

/-- The escape `JSON.stringify` applies to one character inside a string:
quote and backslash escaped, the named control escapes, `\u00xx` for the
remaining control characters, every other character literal. -/
def escapeChar (c : Char) : List Char :=
  if c = '"' then ['\\', '"']
  else if c = '\\' then ['\\', '\\']
  else if c.toNat = 8 then ['\\', 'b']
  else if c.toNat = 9 then ['\\', 't']
  else if c.toNat = 10 then ['\\', 'n']
  else if c.toNat = 12 then ['\\', 'f']
  else if c.toNat = 13 then ['\\', 'r']
  else if c.toNat < 32 then
    ['\\', 'u', '0', '0', hexCharOf (c.toNat / 16), hexCharOf (c.toNat % 16)]
  else [c]

/-- Escape a whole string body. -/
def escapeList : List Char → List Char
  | [] => []
  | c :: cs => escapeChar c ++ escapeList cs

/-- Print a JSON string literal, quotes included. -/
def printStr (s : List Char) : List Char :=
  '"' :: escapeList s ++ ['"']

mutual

/-- `JSON.stringify` (no replacer, no spacing): the compact JSON text of a
document. -/
def printJson : Json → List Char
  | .null => "null".data
  | .bool true => "true".data
  | .bool false => "false".data
  | .num q => ratToChars q
  | .str s => printStr s.data
  | .arr l => '[' :: printItems l ++ [']']
  | .obj l => lbraceChar :: printFields l ++ [rbraceChar]

/-- Comma-separated array items. -/
def printItems : List Json → List Char
  | [] => []
  | [j] => printJson j
  | j :: rest => printJson j ++ ',' :: printItems rest

/-- Comma-separated object fields (`"key":value`). -/
def printFields : List (String × Json) → List Char
  | [] => []
  | [(k, v)] => printStr k.data ++ ':' :: printJson v
  | (k, v) :: rest => printStr k.data ++ ':' :: printJson v ++ ',' :: printFields rest

end

/-- JSON whitespace (space, tab, line feed, carriage return). -/
def isJsonWs (c : Char) : Bool :=
  c.toNat = 32 || c.toNat = 9 || c.toNat = 10 || c.toNat = 13

/-- Value of one lowercase/uppercase hexadecimal digit character. -/
def hexVal (c : Char) : Option Nat :=
  if 48 ≤ c.toNat ∧ c.toNat ≤ 57 then some (c.toNat - 48)
  else if 97 ≤ c.toNat ∧ c.toNat ≤ 102 then some (c.toNat - 87)
  else if 65 ≤ c.toNat ∧ c.toNat ≤ 70 then some (c.toNat - 55)
  else none

/-- Parse the body of a JSON string literal (after the opening quote),
handling the standard escapes.  A `\u` escape denoting a surrogate code unit
is not representable as a scalar value and is refused. -/
def parseStrBody : List Char → Option (List Char × List Char)
  | [] => none
  | c :: cs =>
    if c = '"' then some ([], cs)
    else if c = '\\' then
      match cs with
      | [] => none
      | e :: cs' =>
        if e = 'u' then
          match cs' with
          | h1 :: h2 :: h3 :: h4 :: cs'' =>
            match hexVal h1, hexVal h2, hexVal h3, hexVal h4 with
            | some a, some b, some x, some d =>
              let n := ((a * 16 + b) * 16 + x) * 16 + d
              if n < 0xd800 then
                match parseStrBody cs'' with
                | some (s, rest) => some (Char.ofNat n :: s, rest)
                | none => none
              else none
            | _, _, _, _ => none
          | _ => none
        else
          let c? : Option Char :=
            if e = '"' then some '"'
            else if e = '\\' then some '\\'
            else if e = '/' then some '/'
            else if e = 'b' then some (Char.ofNat 8)
            else if e = 't' then some (Char.ofNat 9)
            else if e = 'n' then some (Char.ofNat 10)
            else if e = 'f' then some (Char.ofNat 12)
            else if e = 'r' then some (Char.ofNat 13)
            else none
          match c? with
          | some c' =>
            match parseStrBody cs' with
            | some (s, rest) => some (c' :: s, rest)
            | none => none
          | none => none
    else if c.toNat < 32 then none
    else
      match parseStrBody cs with
      | some (s, rest) => some (c :: s, rest)
      | none => none

mutual

/-- Parse one JSON value (fuel-guarded recursive descent over the decimal
fragment of JSON; the fuel only bounds nesting and is in surplus whenever it
exceeds the document size). -/
def parseVal : Nat → List Char → Option (Json × List Char)
  | 0, _ => none
  | fuel + 1, cs =>
    match cs.dropWhile isJsonWs with
    | [] => none
    | c :: rest =>
      if c = 'n' then
        match rest with
        | 'u' :: 'l' :: 'l' :: rest' => some (.null, rest')
        | _ => none
      else if c = 't' then
        match rest with
        | 'r' :: 'u' :: 'e' :: rest' => some (.bool true, rest')
        | _ => none
      else if c = 'f' then
        match rest with
        | 'a' :: 'l' :: 's' :: 'e' :: rest' => some (.bool false, rest')
        | _ => none
      else if c = '"' then
        match parseStrBody rest with
        | some (s, rest') => some (.str ⟨s⟩, rest')
        | none => none
      else if c = '[' then
        match rest.dropWhile isJsonWs with
        | c' :: rest' =>
          if c' = ']' then some (.arr [], rest')
          else
            match parseItems fuel rest with
            | some (l, rest'') => some (.arr l, rest'')
            | none => none
        | [] => none
      else if c = lbraceChar then
        match rest.dropWhile isJsonWs with
        | c' :: rest' =>
          if c' = rbraceChar then some (.obj [], rest')
          else
            match parseFields fuel rest with
            | some (l, rest'') => some (.obj l, rest'')
            | none => none
        | [] => none
      else if c = '-' || isDigitChar c then
        match parseNum (c :: rest) with
        | some (q, rest') => some (.num q, rest')
        | none => none
      else none

/-- Parse the items of a non-empty JSON array, consuming the closing
bracket. -/
def parseItems : Nat → List Char → Option (List Json × List Char)
  | 0, _ => none
  | fuel + 1, cs =>
    match parseVal fuel cs with
    | some (j, r1) =>
      match r1.dropWhile isJsonWs with
      | c :: r2 =>
        if c = ',' then
          match parseItems fuel r2 with
          | some (l, r3) => some (j :: l, r3)
          | none => none
        else if c = ']' then some ([j], r2)
        else none
      | [] => none
    | none => none

/-- Parse the fields of a non-empty JSON object, consuming the closing
brace. -/
def parseFields : Nat → List Char → Option (List (String × Json) × List Char)
  | 0, _ => none
  | fuel + 1, cs =>
    match cs.dropWhile isJsonWs with
    | c0 :: r0 =>
      if c0 = '"' then
        match parseStrBody r0 with
        | some (k, r1) =>
          match r1.dropWhile isJsonWs with
          | c1 :: r2 =>
            if c1 = ':' then
              match parseVal fuel r2 with
              | some (v, r3) =>
                match r3.dropWhile isJsonWs with
                | c2 :: r4 =>
                  if c2 = ',' then
                    match parseFields fuel r4 with
                    | some (l, r5) => some ((⟨k⟩, v) :: l, r5)
                    | none => none
                  else if c2 = rbraceChar then some ([(⟨k⟩, v)], r4)
                  else none
                | [] => none
              | none => none
            else none
          | [] => none
        | none => none
      else none
    | [] => none

end

/-- `JSON.parse` (on the decimal fragment): parse one value and require only
whitespace after it. -/
def parseJson (s : List Char) : Option Json :=
  match parseVal (s.length + 1) s with
  | some (j, rest) =>
    if (rest.dropWhile isJsonWs).isEmpty then some j else none
  | none => none

-- ===========================================================================
-- Stroke serializer (src/features/Calligraphy/services/strokeSerializer.ts)
-- ===========================================================================

/-- A stroke point (`Point` from the Calligraphy types). -/
structure Point where
  x : Rat
  y : Rat
  timestamp : Rat
deriving DecidableEq, Repr

/-- One drawn stroke (`StrokeData` from the Calligraphy types). -/
structure StrokeData where
  id : String
  points : List Point
  startTime : Rat
  endTime : Rat
  pressure : Option (List Rat)
deriving DecidableEq, Repr

/-- The JSON document of one point, fields in declaration order. -/
def pointToJson (p : Point) : Json :=
  .obj [("x", .num p.x), ("y", .num p.y), ("timestamp", .num p.timestamp)]

/-- The JSON document of one stroke, fields in declaration order; an absent
`pressure` is skipped entirely (as `JSON.stringify` skips `undefined`
properties). -/
def strokeToJson (s : StrokeData) : Json :=
  .obj ([("id", .str s.id),
         ("points", .arr (s.points.map pointToJson)),
         ("startTime", .num s.startTime),
         ("endTime", .num s.endTime)] ++
    (match s.pressure with
     | some ps => [("pressure", .arr (ps.map Json.num))]
     | none => []))

/-- `serialize`: `JSON.stringify(strokes)`. -/
def serialize (strokes : List StrokeData) : String :=
  ⟨printJson (.arr (strokes.map strokeToJson))⟩

/-- Field lookup on a parsed object's fields. -/
def jsonLookup : List (String × Json) → String → Option Json
  | [], _ => none
  | (k, v) :: rest, key => if k == key then some v else jsonLookup rest key

/-- Field access on a parsed JSON value (`undefined` is `none`). -/
def Json.get : Json → String → Option Json
  | .obj fields, key => jsonLookup fields key
  | _, _ => none

/-- Is the parsed value an object in the sense of
`typeof x === 'object' && x !== null` (arrays included)? -/
def Json.isObjectLike : Json → Bool
  | .obj _ => true
  | .arr _ => true
  | _ => false

/-- Is the property a number?  (`typeof p.x === 'number' && !Number.isNaN`;
a parsed JSON number is never NaN.) -/
def isNumProp : Option Json → Bool
  | some (.num _) => true
  | _ => false

/-- `isValidPoint` from the source. -/
def isValidPoint (point : Json) : Bool :=
  point.isObjectLike &&
  isNumProp (point.get "x") &&
  isNumProp (point.get "y") &&
  isNumProp (point.get "timestamp")

/-- `isValidStrokeData` from the source. -/
def isValidStrokeData (stroke : Json) : Bool :=
  stroke.isObjectLike &&
  (match stroke.get "id" with
   | some (.str _) => true
   | _ => false) &&
  isNumProp (stroke.get "startTime") &&
  isNumProp (stroke.get "endTime") &&
  (match stroke.get "points" with
   | some (.arr pts) => pts.all isValidPoint
   | _ => false) &&
  (match stroke.get "pressure" with
   | none => true
   | some (.arr ps) => ps.all fun p =>
       match p with
       | .num _ => true
       | _ => false
   | some _ => false)

/-- The index of the first element failing `isValidStrokeData`, mirroring the
validation loop of `deserialize`. -/
def firstInvalidIdx : Nat → List Json → Option Nat
  | _, [] => none
  | i, j :: rest =>
    if isValidStrokeData j then firstInvalidIdx (i + 1) rest else some i

/-- `deserialize`: `JSON.parse`, top-level array check, then per-element
structural validation naming the first offending index; on success the
parsed elements are returned as the strokes. -/
def deserialize (json : String) : Except String (List Json) :=
  match parseJson json.data with
  | none => Except.error "Unexpected token in JSON"
  | some (.arr l) =>
    match firstInvalidIdx 0 l with
    | some i => Except.error ("Invalid stroke data at index " ++ natToString i)
    | none => Except.ok l
  | some _ => Except.error "Invalid stroke data: expected an array"

/-- Decode a point document back into a `Point` (field-for-field reading of
a value `isValidPoint` accepts, on the declared fields). -/
def jsonToPoint (j : Json) : Option Point :=
  match j.get "x", j.get "y", j.get "timestamp" with
  | some (.num x), some (.num y), some (.num t) => some ⟨x, y, t⟩
  | _, _, _ => none

/-- Decode the elements of a `pressure` array. -/
def jsonNums : List Json → Option (List Rat)
  | [] => some []
  | .num q :: rest =>
    match jsonNums rest with
    | some l => some (q :: l)
    | none => none
  | _ :: _ => none

/-- Decode a list of point documents. -/
def jsonPoints : List Json → Option (List Point)
  | [] => some []
  | j :: rest =>
    match jsonToPoint j, jsonPoints rest with
    | some p, some l => some (p :: l)
    | _, _ => none

/-- Decode a stroke document back into a `StrokeData`, field for field. -/
def jsonToStroke (j : Json) : Option StrokeData :=
  match j.get "id", j.get "points", j.get "startTime", j.get "endTime" with
  | some (.str id), some (.arr pts), some (.num st), some (.num et) =>
    match jsonPoints pts with
    | some ps =>
      match j.get "pressure" with
      | none => some ⟨id, ps, st, et, none⟩
      | some (.arr prs) =>
        match jsonNums prs with
        | some l => some ⟨id, ps, st, et, some l⟩
        | none => none
      | some _ => none
    | none => none
  | _, _, _, _ => none

mutual

/-- Every numeric leaf of the document has a finite decimal expansion (the
form of every JavaScript number). -/
def jsonDecimal : Json → Bool
  | .null => true
  | .bool _ => true
  | .num q => decimalRat q
  | .str _ => true
  | .arr l => jsonDecimalItems l
  | .obj l => jsonDecimalFields l

/-- `jsonDecimal` over array items. -/
def jsonDecimalItems : List Json → Bool
  | [] => true
  | j :: rest => jsonDecimal j && jsonDecimalItems rest

/-- `jsonDecimal` over object fields. -/
def jsonDecimalFields : List (String × Json) → Bool
  | [] => true
  | (_, v) :: rest => jsonDecimal v && jsonDecimalFields rest

end

/-- All numbers of a stroke have finite decimal expansions. -/
def strokeDecimal (s : StrokeData) : Bool :=
  decimalRat s.startTime && decimalRat s.endTime &&
  s.points.all (fun p => decimalRat p.x && decimalRat p.y &&
    decimalRat p.timestamp) &&
  (match s.pressure with
   | some l => l.all decimalRat
   | none => true)

mutual

/-- Fuel adequacy measure for `parseVal`: parsing a printed document
succeeds with any fuel of at least its size. -/
def jsonSize : Json → Nat
  | .null => 1
  | .bool _ => 1
  | .num _ => 1
  | .str _ => 1
  | .arr l => 1 + jsonItemsSize l
  | .obj l => 1 + jsonFieldsSize l

/-- `jsonSize` over array items (maximum fuel needed along the parse). -/
def jsonItemsSize : List Json → Nat
  | [] => 0
  | j :: rest => 1 + max (jsonSize j) (jsonItemsSize rest)

/-- `jsonSize` over object fields. -/
def jsonFieldsSize : List (String × Json) → Nat
  | [] => 0
  | (_, v) :: rest => 1 + max (jsonSize v) (jsonFieldsSize rest)

end

-- ===========================================================================
-- Filter dimensions, for stating order independence of `combineFilters`
-- ===========================================================================

/-- The three non-search filter dimensions of `ActiveFilters`. -/
inductive FilterDim where
  | difficulty
  | price
  | platform
deriving DecidableEq, Repr

/-- Apply one dimension of the active filters, guarded by its selector being
non-empty — one stage of `combineFilters`. -/
def applyFilterDim (filters : ActiveFilters) (acc : List Resource) :
    FilterDim → List Resource
  | .difficulty =>
    if filters.difficulty.length > 0 then
      filterByDifficulty acc filters.difficulty
    else acc
  | .price =>
    if filters.priceType.length > 0 then
      filterByPriceType acc filters.priceType
    else acc
  | .platform =>
    if filters.platforms.length > 0 then
      filterByPlatform acc filters.platforms
    else acc

/-- Apply the dimensions in the given order. -/
def applyFilterDims (filters : ActiveFilters) (dims : List FilterDim)
    (resources : List Resource) : List Resource :=
  dims.foldl (applyFilterDim filters) resources

-- ===========================================================================
-- Specification-side views of decimal numerals
-- ===========================================================================

/-- Big-endian decimal digit values of a natural number (`0` is `[0]`). -/
def digitsBE (n : Nat) : List Nat :=
  if n = 0 then [0] else (Nat.digits 10 n).reverse

/-- Value of a big-endian digit list. -/
def digitsVal (ds : List Nat) : Nat :=
  ds.foldl (fun a d => a * 10 + d) 0

/-- The remaining input cannot extend a decimal numeral: empty, or starting
with a character that is neither a digit nor a decimal point. -/
def sepOk : List Char → Bool
  | [] => true
  | c :: _ => !isDigitChar c && c != '.'

-- ===========================================================================
-- Resource objects for exercising the validator
-- ===========================================================================

/-- A resource object with the ten required fields (in interface order) and
optional `rating` / `featured` fields. -/
def mkResourceObj (id name description category subcategory : String)
    (tags : List JsValue) (difficulty priceType : String)
    (platforms : List JsValue) (url : String)
    (rating featured : Option JsValue) : JsValue :=
  .obj ([("id", .str id), ("name", .str name),
         ("description", .str description), ("category", .str category),
         ("subcategory", .str subcategory), ("tags", .arr tags),
         ("difficulty", .str difficulty), ("priceType", .str priceType),
         ("platforms", .arr platforms), ("url", .str url)] ++
    (match rating with
     | some v => [("rating", v)]
     | none => []) ++
    (match featured with
     | some v => [("featured", v)]
     | none => []))

/-- The value passes the validator's `isNonEmptyString` check. -/
def validStringField (s : String) : Bool := jsTruthy (jsTrim s)

/-- A tags array the validator accepts. -/
def goodTags (tags : List JsValue) : Bool :=
  !tags.isEmpty && (tags.filter isBadTag).isEmpty

/-- A platforms array the validator accepts. -/
def goodPlatforms (ps : List JsValue) : Bool :=
  !ps.isEmpty && (ps.filter isBadPlatform).isEmpty

-- ===========================================================================
-- Character-level lemmas for the string model
-- ===========================================================================

/-- `Char.ofNat` of a small scalar value has that value as its code. -/
theorem char_toNat_ofNat {n : Nat} (h : n < 0xd800) :
    (Char.ofNat n).toNat = n := by
  unfold Char.ofNat
  rw [dif_pos (Or.inl h)]
  rfl

/-- `Char.ofNat` inverts `Char.toNat`. -/
theorem char_ofNat_toNat (c : Char) : Char.ofNat c.toNat = c := by
  have hv : Nat.isValidChar c.toNat := c.valid
  unfold Char.ofNat
  rw [dif_pos hv]
  apply Char.eq_of_val_eq
  apply UInt32.eq_of_toBitVec_eq
  apply BitVec.eq_of_toNat_eq
  rfl

/-- The code-level reading of `Char.toLower`. -/
theorem toLower_eq (c : Char) : Char.toLower c =
    (if c.toNat ≥ 65 ∧ c.toNat ≤ 90 then Char.ofNat (c.toNat + 32) else c) :=
  rfl

/-- The code-level reading of `Char.toUpper`. -/
theorem toUpper_eq (c : Char) : Char.toUpper c =
    (if c.toNat ≥ 97 ∧ c.toNat ≤ 122 then Char.ofNat (c.toNat - 32) else c) :=
  rfl

/-- Lowercasing is idempotent. -/
theorem toLower_toLower (c : Char) :
    (Char.toLower c).toLower = Char.toLower c := by
  rw [toLower_eq c, toLower_eq]
  split
  · next h =>
    rw [char_toNat_ofNat (by omega)]
    rw [if_neg (by omega)]
  · rfl

/-- Lowercasing after uppercasing is plain lowercasing. -/
theorem toLower_toUpper (c : Char) :
    (Char.toUpper c).toLower = Char.toLower c := by
  rw [toUpper_eq c]
  split
  · next h =>
    rw [toLower_eq, char_toNat_ofNat (by omega), if_pos (by omega),
      toLower_eq, if_neg (by omega)]
    have h2 : c.toNat - 32 + 32 = c.toNat := by omega
    rw [h2, char_ofNat_toNat]
  · next h =>
    rfl

/-- Case mapping does not create or destroy whitespace. -/
theorem isJsSpace_toLower (c : Char) :
    isJsSpace (Char.toLower c) = isJsSpace c := by
  rw [toLower_eq c]
  split
  · next h =>
    unfold isJsSpace
    rw [char_toNat_ofNat (by omega)]
    rw [Bool.eq_iff_iff]
    simp only [Bool.or_eq_true, decide_eq_true_eq]
    omega
  · rfl

/-- Uppercasing does not create or destroy whitespace. -/
theorem isJsSpace_toUpper (c : Char) :
    isJsSpace (Char.toUpper c) = isJsSpace c := by
  rw [toUpper_eq c]
  split
  · next h =>
    unfold isJsSpace
    rw [char_toNat_ofNat (by omega)]
    rw [Bool.eq_iff_iff]
    simp only [Bool.or_eq_true, decide_eq_true_eq]
    omega
  · rfl

-- ===========================================================================
-- String-level lemmas: lowercasing, trimming
-- ===========================================================================

/-- `jsLower` is idempotent. -/
theorem jsLower_jsLower (s : String) : jsLower (jsLower s) = jsLower s := by
  unfold jsLower
  simp only [List.map_map]
  congr 1
  apply List.map_congr_left
  intro c _
  exact toLower_toLower c

/-- Lowercasing an uppercased string is plain lowercasing. -/
theorem jsLower_jsUpper (s : String) : jsLower (jsUpper s) = jsLower s := by
  unfold jsLower jsUpper
  simp only [List.map_map]
  apply congrArg
  apply List.map_congr_left
  intro c _
  exact toLower_toUpper c

/-- Trimming commutes with lowercasing. -/
theorem jsTrim_jsLower (s : String) : jsTrim (jsLower s) = jsLower (jsTrim s) := by
  unfold jsTrim jsLower
  apply congrArg
  have hcomp : (isJsSpace ∘ Char.toLower) = isJsSpace := by
    funext c
    exact isJsSpace_toLower c
  simp only [List.dropWhile_map, hcomp, ← List.map_reverse]

/-- Trimming commutes with uppercasing. -/
theorem jsTrim_jsUpper (s : String) : jsTrim (jsUpper s) = jsUpper (jsTrim s) := by
  unfold jsTrim jsUpper
  apply congrArg
  have hcomp : (isJsSpace ∘ Char.toUpper) = isJsSpace := by
    funext c
    exact isJsSpace_toUpper c
  simp only [List.dropWhile_map, hcomp, ← List.map_reverse]

/-- The trimmed lowercased query of a lowercased query. -/
theorem trimLower_lower (q : String) :
    jsLower (jsTrim (jsLower q)) = jsLower (jsTrim q) := by
  rw [jsTrim_jsLower, jsLower_jsLower]

/-- The trimmed lowercased query of an uppercased query. -/
theorem trimLower_upper (q : String) :
    jsLower (jsTrim (jsUpper q)) = jsLower (jsTrim q) := by
  rw [jsTrim_jsUpper, jsLower_jsUpper]

-- ===========================================================================
-- Filter lemmas
-- ===========================================================================

/-- Membership in a non-empty difficulty filter. -/
theorem mem_filterByDifficulty {ds : List String} (h : ds ≠ [])
    (R : List Resource) (r : Resource) :
    r ∈ filterByDifficulty R ds ↔ r ∈ R ∧ r.difficulty ∈ ds := by
  unfold filterByDifficulty
  rw [if_neg (by simpa using h), List.mem_filter]
  simp [List.contains]

/-- Membership in a non-empty price-type filter. -/
theorem mem_filterByPriceType {ps : List String} (h : ps ≠ [])
    (R : List Resource) (r : Resource) :
    r ∈ filterByPriceType R ps ↔ r ∈ R ∧ r.priceType ∈ ps := by
  unfold filterByPriceType
  rw [if_neg (by simpa using h), List.mem_filter]
  simp [List.contains]

/-- Membership in a non-empty platform filter. -/
theorem mem_filterByPlatform {ps : List String} (h : ps ≠ [])
    (R : List Resource) (r : Resource) :
    r ∈ filterByPlatform R ps ↔ r ∈ R ∧ ∃ p ∈ r.platforms, p ∈ ps := by
  unfold filterByPlatform
  rw [if_neg (by simpa using h), List.mem_filter]
  simp [List.contains, List.any_eq_true]

/-- Membership across one guarded dimension stage. -/
theorem mem_applyFilterDim (f : ActiveFilters) (acc : List Resource)
    (d : FilterDim) (r : Resource) :
    r ∈ applyFilterDim f acc d ↔ r ∈ acc ∧
      (match d with
       | .difficulty => f.difficulty ≠ [] → r.difficulty ∈ f.difficulty
       | .price => f.priceType ≠ [] → r.priceType ∈ f.priceType
       | .platform => f.platforms ≠ [] → ∃ p ∈ r.platforms, p ∈ f.platforms) := by
  cases d <;> simp only [applyFilterDim] <;> split
  · next h =>
    rw [mem_filterByDifficulty (by simpa using List.length_pos.mp h)]
    simp [List.length_pos.mp h, (by simpa using List.length_pos.mp h : f.difficulty ≠ [])]
  · next h =>
    have : f.difficulty = [] := by simpa using h
    simp [this]
  · next h =>
    rw [mem_filterByPriceType (by simpa using List.length_pos.mp h)]
    simp [(by simpa using List.length_pos.mp h : f.priceType ≠ [])]
  · next h =>
    have : f.priceType = [] := by simpa using h
    simp [this]
  · next h =>
    rw [mem_filterByPlatform (by simpa using List.length_pos.mp h)]
    simp [(by simpa using List.length_pos.mp h : f.platforms ≠ [])]
  · next h =>
    have : f.platforms = [] := by simpa using h
    simp [this]

/-- `combineFilters` is the three dimension stages applied in declaration
order. -/
theorem combineFilters_eq_applyDims (R : List Resource) (f : ActiveFilters) :
    combineFilters R f =
      applyFilterDims f [.difficulty, .price, .platform] R := rfl

/-- Membership in the combined filter: a record survives precisely when it
is an input record satisfying every non-empty dimension. -/
theorem mem_combineFilters (R : List Resource) (f : ActiveFilters)
    (r : Resource) :
    r ∈ combineFilters R f ↔ r ∈ R ∧
      (f.difficulty ≠ [] → r.difficulty ∈ f.difficulty) ∧
      (f.priceType ≠ [] → r.priceType ∈ f.priceType) ∧
      (f.platforms ≠ [] → ∃ p ∈ r.platforms, p ∈ f.platforms) := by
  rw [combineFilters_eq_applyDims]
  show r ∈ applyFilterDim f (applyFilterDim f (applyFilterDim f R .difficulty)
    .price) .platform ↔ _
  rw [mem_applyFilterDim, mem_applyFilterDim, mem_applyFilterDim]
  tauto

/-- Two boolean filters commute. -/
theorem filter_comm_bool {α : Type} (p q : α → Bool) (l : List α) :
    List.filter p (List.filter q l) = List.filter q (List.filter p l) := by
  rw [List.filter_filter, List.filter_filter]
  apply List.filter_congr
  intro x _
  rw [Bool.and_comm]

/-- A positive difficulty selector filters. -/
theorem filterByDifficulty_pos {ds : List String} (h : ds ≠ [])
    (R : List Resource) : filterByDifficulty R ds =
      R.filter fun r => ds.contains r.difficulty := by
  unfold filterByDifficulty
  rw [if_neg (by simpa using h)]

/-- A positive price-type selector filters. -/
theorem filterByPriceType_pos {ps : List String} (h : ps ≠ [])
    (R : List Resource) : filterByPriceType R ps =
      R.filter fun r => ps.contains r.priceType := by
  unfold filterByPriceType
  rw [if_neg (by simpa using h)]

/-- A positive platform selector filters. -/
theorem filterByPlatform_pos {ps : List String} (h : ps ≠ [])
    (R : List Resource) : filterByPlatform R ps =
      R.filter fun r => r.platforms.any fun p => ps.contains p := by
  unfold filterByPlatform
  rw [if_neg (by simpa using h)]

/-- Each dimension stage is either the identity or one boolean filter. -/
theorem applyFilterDim_eq_cases (f : ActiveFilters) (d : FilterDim) :
    (∃ p : Resource → Bool, ∀ acc, applyFilterDim f acc d = acc.filter p) ∨
    (∀ acc, applyFilterDim f acc d = acc) := by
  cases d
  · by_cases h : f.difficulty.length > 0
    · exact Or.inl ⟨_, fun acc => by
        simp only [applyFilterDim, if_pos h]
        exact filterByDifficulty_pos (by simpa using List.length_pos.mp h) acc⟩
    · exact Or.inr fun acc => by simp only [applyFilterDim, if_neg h]
  · by_cases h : f.priceType.length > 0
    · exact Or.inl ⟨_, fun acc => by
        simp only [applyFilterDim, if_pos h]
        exact filterByPriceType_pos (by simpa using List.length_pos.mp h) acc⟩
    · exact Or.inr fun acc => by simp only [applyFilterDim, if_neg h]
  · by_cases h : f.platforms.length > 0
    · exact Or.inl ⟨_, fun acc => by
        simp only [applyFilterDim, if_pos h]
        exact filterByPlatform_pos (by simpa using List.length_pos.mp h) acc⟩
    · exact Or.inr fun acc => by simp only [applyFilterDim, if_neg h]

/-- Dimension stages commute with one another. -/
theorem applyFilterDim_comm (f : ActiveFilters) (acc : List Resource)
    (d₁ d₂ : FilterDim) :
    applyFilterDim f (applyFilterDim f acc d₁) d₂ =
      applyFilterDim f (applyFilterDim f acc d₂) d₁ := by
  rcases applyFilterDim_eq_cases f d₁ with ⟨p₁, h₁⟩ | h₁ <;>
    rcases applyFilterDim_eq_cases f d₂ with ⟨p₂, h₂⟩ | h₂ <;>
      simp only [h₁, h₂] <;>
    try exact filter_comm_bool p₂ p₁ acc

/-- Applying the dimensions in any two orders that use each dimension the
same number of times gives the same list. -/
theorem applyFilterDims_perm (f : ActiveFilters) (R : List Resource)
    {dims₁ dims₂ : List FilterDim} (h : dims₁.Perm dims₂) :
    applyFilterDims f dims₁ R = applyFilterDims f dims₂ R := by
  unfold applyFilterDims
  haveI : RightCommutative (applyFilterDim f) :=
    ⟨fun acc d₁ d₂ => applyFilterDim_comm f acc d₁ d₂⟩
  exact h.foldl_eq R

/-- Every dimension stage yields a subsequence of its input. -/
theorem applyFilterDim_sublist (f : ActiveFilters) (acc : List Resource)
    (d : FilterDim) : (applyFilterDim f acc d).Sublist acc := by
  rcases applyFilterDim_eq_cases f d with ⟨p, h⟩ | h <;> rw [h] <;>
    try exact List.filter_sublist acc

/-- Applying any dimension order yields a subsequence of the input. -/
theorem applyFilterDims_sublist (f : ActiveFilters) (dims : List FilterDim)
    (R : List Resource) : (applyFilterDims f dims R).Sublist R := by
  induction dims generalizing R with
  | nil => exact List.Sublist.refl R
  | cons d rest ih =>
    exact List.Sublist.trans (ih (applyFilterDim f R d))
      (applyFilterDim_sublist f R d)

-- ===========================================================================
-- Count lemmas
-- ===========================================================================

/-- Bumping a counter raises the total by one. -/
theorem countValuesSum_bumpCount (m : List (String × Nat)) (k : String) :
    countValuesSum (bumpCount m k) = countValuesSum m + 1 := by
  induction m with
  | nil => rfl
  | cons kv rest ih =>
    obtain ⟨k', v⟩ := kv
    unfold bumpCount
    split
    · simp [countValuesSum]
      omega
    · simp only [countValuesSum, List.map_cons, List.sum_cons] at ih ⊢
      omega

/-- Counting a list of records bumps the total once per record. -/
theorem countValuesSum_foldl (key : Resource → String) (l : List Resource)
    (m : List (String × Nat)) :
    countValuesSum (l.foldl (fun m r => bumpCount m (key r)) m) =
      countValuesSum m + l.length := by
  induction l generalizing m with
  | nil => rfl
  | cons r rest ih =>
    simp only [List.foldl_cons, List.length_cons]
    rw [ih, countValuesSum_bumpCount]
    omega

-- ===========================================================================
-- Claim theorems
-- ===========================================================================

/-- C7: an empty selector set means "no constraint": each of the three
set-valued filters returns its input unchanged on `[]`; a non-empty selector
keeps exactly the records whose field value (for platforms: at least one
platform) belongs to the selector. -/
theorem c7_empty_selector_passthrough (R : List Resource) :
    (filterByDifficulty R [] = R ∧ filterByPriceType R [] = R ∧
      filterByPlatform R [] = R) ∧
    (∀ ds : List String, ds ≠ [] → ∀ r : Resource,
      r ∈ filterByDifficulty R ds ↔ r ∈ R ∧ r.difficulty ∈ ds) ∧
    (∀ ps : List String, ps ≠ [] → ∀ r : Resource,
      r ∈ filterByPriceType R ps ↔ r ∈ R ∧ r.priceType ∈ ps) ∧
    (∀ ps : List String, ps ≠ [] → ∀ r : Resource,
      r ∈ filterByPlatform R ps ↔ r ∈ R ∧ ∃ p ∈ r.platforms, p ∈ ps) := by
  refine ⟨⟨rfl, rfl, rfl⟩, ?_, ?_, ?_⟩
  · intro ds h r
    exact mem_filterByDifficulty h R r
  · intro ps h r
    exact mem_filterByPriceType h R r
  · intro ps h r
    exact mem_filterByPlatform h R r

/-- Witness for C7 at a concrete record list and selector. -/
theorem c7_empty_selector_passthrough_witness :
    let r : Resource := ⟨"a", "Anki", none, "srs", none, "apps", "flashcards",
      ["srs"], "beginner", "free", ["web"], "u", none, none⟩
    r ∈ filterByDifficulty [r] ["beginner"] ↔
      r ∈ [r] ∧ r.difficulty ∈ ["beginner"] :=
  ((c7_empty_selector_passthrough _).2.1 ["beginner"] (by decide) _)

/-- C8: `filterByCategory` keeps exactly the records whose `category` equals
the argument, and returns the empty list (rather than failing) when nothing
matches. -/
theorem c8_filter_by_category (R : List Resource) (c : String) :
    (∀ r : Resource, r ∈ filterByCategory R c ↔ r ∈ R ∧ r.category = c) ∧
    ((∀ r ∈ R, r.category ≠ c) → filterByCategory R c = []) ∧
    (filterByCategory R c).length =
      (R.filter fun r => r.category == c).length := by
  refine ⟨?_, ?_, rfl⟩
  · intro r
    unfold filterByCategory
    rw [List.mem_filter]
    simp
  · intro h
    unfold filterByCategory
    rw [List.filter_eq_nil_iff]
    intro a ha
    simpa using h a ha

/-- Witness for C8 at a concrete no-match input. -/
theorem c8_filter_by_category_witness :
    filterByCategory [⟨"a", "Anki", none, "srs", none, "apps", "flashcards",
      ["srs"], "beginner", "free", ["web"], "u", none, none⟩] "games" = [] :=
  (c8_filter_by_category _ "games").2.1 (by decide)

/-- C9 (spec-modelled `lib/counts.ts`): category counts total the record
count, and the subcategory counts of one category total that category's own
count. -/
theorem c9_count_totals (R : List Resource) :
    countValuesSum (getCategoryResourceCounts R) = R.length ∧
    ∀ c : String, countValuesSum (getSubcategoryResourceCounts R c) =
      getResourceCountForCategory R c := by
  constructor
  · unfold getCategoryResourceCounts
    rw [countValuesSum_foldl]
    simp [countValuesSum]
  · intro c
    unfold getSubcategoryResourceCounts
    rw [countValuesSum_foldl]
    simp [countValuesSum, getResourceCountForCategory]

/-- C10: every filter and search operation returns a subsequence of its
input — kept records stay in their original relative order, none is
duplicated or introduced. -/
theorem c10_filters_are_subsequences (R : List Resource)
    (c sc : String) (sel : List String) (f : ActiveFilters) (q : String) :
    (filterByCategory R c).Sublist R ∧
    (filterBySubcategory R sc).Sublist R ∧
    (filterByCategoryAndSubcategory R c sc).Sublist R ∧
    (filterByDifficulty R sel).Sublist R ∧
    (filterByPriceType R sel).Sublist R ∧
    (filterByPlatform R sel).Sublist R ∧
    (combineFilters R f).Sublist R ∧
    (searchResources R q).Sublist R := by
  refine ⟨List.filter_sublist R, List.filter_sublist R, List.filter_sublist R,
    ?_, ?_, ?_, ?_, ?_⟩
  · unfold filterByDifficulty
    split
    · exact List.Sublist.refl R
    · exact List.filter_sublist R
  · unfold filterByPriceType
    split
    · exact List.Sublist.refl R
    · exact List.filter_sublist R
  · unfold filterByPlatform
    split
    · exact List.Sublist.refl R
    · exact List.filter_sublist R
  · rw [combineFilters_eq_applyDims]
    exact applyFilterDims_sublist f _ R
  · unfold searchResources
    dsimp only
    split
    · exact List.Sublist.refl R
    · exact List.filter_sublist R

/-- C1: every record surviving `combineFilters` satisfies every non-empty
dimension simultaneously; the result is a subset of each per-dimension
filter's result; and the three dimension stages applied in any permutation
give identical record-id lists. -/
theorem c1_combine_filters_conjunction (R : List Resource) (f : ActiveFilters) :
    (∀ r ∈ combineFilters R f,
      (f.difficulty ≠ [] → r.difficulty ∈ f.difficulty) ∧
      (f.priceType ≠ [] → r.priceType ∈ f.priceType) ∧
      (f.platforms ≠ [] → ∃ p ∈ r.platforms, p ∈ f.platforms)) ∧
    (∀ r ∈ combineFilters R f,
      r ∈ filterByDifficulty R f.difficulty ∧
      r ∈ filterByPriceType R f.priceType ∧
      r ∈ filterByPlatform R f.platforms) ∧
    combineFilters R f =
      applyFilterDims f [.difficulty, .price, .platform] R ∧
    (∀ dims₁ dims₂ : List FilterDim,
      dims₁.Perm [.difficulty, .price, .platform] →
      dims₂.Perm [.difficulty, .price, .platform] →
      (applyFilterDims f dims₁ R).map Resource.id =
        (applyFilterDims f dims₂ R).map Resource.id) := by
  refine ⟨?_, ?_, combineFilters_eq_applyDims R f, ?_⟩
  · intro r hr
    exact ((mem_combineFilters R f r).mp hr).2
  · intro r hr
    obtain ⟨hR, hd, hp, hpl⟩ := (mem_combineFilters R f r).mp hr
    refine ⟨?_, ?_, ?_⟩
    · by_cases h : f.difficulty = []
      · rw [h]
        exact hR
      · exact (mem_filterByDifficulty h R r).mpr ⟨hR, hd h⟩
    · by_cases h : f.priceType = []
      · rw [h]
        exact hR
      · exact (mem_filterByPriceType h R r).mpr ⟨hR, hp h⟩
    · by_cases h : f.platforms = []
      · rw [h]
        exact hR
      · exact (mem_filterByPlatform h R r).mpr ⟨hR, hpl h⟩
  · intro dims₁ dims₂ h₁ h₂
    rw [applyFilterDims_perm f R (h₁.trans h₂.symm)]

/-- Witness for C1: a concrete record list and filter state, with the
dimension order difficulty-price-platform against platform-price-difficulty,
and a concrete surviving record. -/
theorem c1_combine_filters_conjunction_witness :
    let r : Resource := ⟨"a", "Anki", none, "srs", none, "apps", "flashcards",
      ["srs"], "beginner", "free", ["web"], "u", none, none⟩
    let f : ActiveFilters := ⟨["beginner"], [], ["web"], ""⟩
    ((f.difficulty ≠ [] → r.difficulty ∈ f.difficulty) ∧
      (f.priceType ≠ [] → r.priceType ∈ f.priceType) ∧
      (f.platforms ≠ [] → ∃ p ∈ r.platforms, p ∈ f.platforms)) ∧
    (applyFilterDims f [.platform, .price, .difficulty] [r]).map Resource.id =
      (applyFilterDims f [.difficulty, .price, .platform] [r]).map Resource.id :=
  ⟨(c1_combine_filters_conjunction
      [⟨"a", "Anki", none, "srs", none, "apps", "flashcards", ["srs"],
        "beginner", "free", ["web"], "u", none, none⟩]
      ⟨["beginner"], [], ["web"], ""⟩).1 _ (by decide),
   (c1_combine_filters_conjunction
      [⟨"a", "Anki", none, "srs", none, "apps", "flashcards", ["srs"],
        "beginner", "free", ["web"], "u", none, none⟩]
      ⟨["beginner"], [], ["web"], ""⟩).2.2.2 _ _ (by decide) (by decide)⟩

-- ===========================================================================
-- Search lemmas and claims
-- ===========================================================================

/-- An if-then-true-else chain link is a disjunction. -/
theorem ite_bool_or (b y : Bool) : (if b = true then true else y) = (b || y) := by
  cases b <;> simp

/-- The per-record matcher is the search filter body behind the same
empty-query guard. -/
theorem resourceMatchesQuery_eq (r : Resource) (q : String) :
    resourceMatchesQuery r q =
      (if (jsLower (jsTrim q)).data.length = 0 then true
       else searchResourcesPred (jsLower (jsTrim q)) r) := rfl

/-- The search filter body as a disjunction of the five field checks. -/
theorem searchResourcesPred_or (t : String) (r : Resource) :
    searchResourcesPred t r =
      (jsIncludes (jsLower r.name) t ||
       (match r.nameJa with
        | some s => jsTruthy s && jsIncludes (jsLower s) t
        | none => false) ||
       jsIncludes (jsLower r.description) t ||
       (match r.descriptionLong with
        | some s => jsTruthy s && jsIncludes (jsLower s) t
        | none => false) ||
       r.tags.any fun tag => jsIncludes (jsLower tag) t) := by
  unfold searchResourcesPred
  simp only [ite_bool_or, Bool.or_false, Bool.or_assoc]

/-- Against a non-empty needle, the truthiness guard on an optional field is
redundant: the empty string contains no non-empty needle. -/
theorem truthy_includes (s t : String) (ht : t.data ≠ []) :
    (jsTruthy s && jsIncludes (jsLower s) t) = jsIncludes (jsLower s) t := by
  by_cases hs : s.data = []
  · have h1 : jsTruthy s = false := by
      unfold jsTruthy
      simp [hs]
    have h2 : jsIncludes (jsLower s) t = false := by
      unfold jsIncludes jsLower
      rw [hs]
      simp [List.infix_nil, ht]
    rw [h1, h2]
    rfl
  · have h1 : jsTruthy s = true := by
      unfold jsTruthy
      simp [hs]
    rw [h1, Bool.true_and]

/-- C3: the per-record matcher agrees pointwise with the collection search:
for a record of the collection, it matches the query exactly when it appears
in the search result. -/
theorem c3_matcher_pointwise_consistent (r : Resource) (R : List Resource)
    (q : String) (h : r ∈ R) :
    resourceMatchesQuery r q = true ↔ r ∈ searchResources R q := by
  rw [resourceMatchesQuery_eq]
  unfold searchResources
  dsimp only
  split
  · simp [h]
  · rw [List.mem_filter]
    simp [h]

/-- Witness for C3 at a concrete record, collection and query. -/
theorem c3_matcher_pointwise_consistent_witness :
    let r : Resource := ⟨"a", "Anki", none, "srs", none, "apps", "flashcards",
      ["srs"], "beginner", "free", ["web"], "u", none, none⟩
    resourceMatchesQuery r "anki" = true ↔ r ∈ searchResources [r] "anki" :=
  c3_matcher_pointwise_consistent _ _ "anki" (by decide)

/-- Two queries with the same trimmed lowercasing search identically. -/
theorem searchResources_query_congr (R : List Resource) {q₁ q₂ : String}
    (h : jsLower (jsTrim q₁) = jsLower (jsTrim q₂)) :
    searchResources R q₁ = searchResources R q₂ := by
  unfold searchResources
  dsimp only
  rw [h]

/-- One full-lowercase character of a basic-Latin character is its
basic-Latin lowercasing. -/
theorem charLowerFull_ascii {c : Char} (h : c.toNat < 128) :
    charLowerFull c = [Char.toLower c] := by
  unfold charLowerFull
  rw [toLower_eq c]
  by_cases h1 : c.toNat ≥ 65 ∧ c.toNat ≤ 90
  · rw [if_pos h1, if_pos h1]
  · rw [if_neg h1, if_neg (by omega), if_neg h1]

/-- One full-uppercase character of a basic-Latin character is its
basic-Latin uppercasing. -/
theorem charUpperFull_ascii {c : Char} (h : c.toNat < 128) :
    charUpperFull c = [Char.toUpper c] := by
  unfold charUpperFull
  rw [toUpper_eq c]
  by_cases h1 : c.toNat ≥ 97 ∧ c.toNat ≤ 122
  · rw [if_pos h1, if_pos h1]
  · rw [if_neg h1, if_neg (by omega), if_neg (by omega), if_neg (by omega),
      if_neg (by omega), if_neg h1]

/-- On basic Latin the full whitespace class is the basic one. -/
theorem isJsSpaceFull_ascii {c : Char} (h : c.toNat < 128) :
    isJsSpaceFull c = isJsSpace c := by
  unfold isJsSpaceFull isJsSpace
  rw [Bool.eq_iff_iff]
  simp only [Bool.or_eq_true, Bool.and_eq_true, decide_eq_true_eq]
  omega

/-- Basic-Latin lowercasing stays basic Latin. -/
theorem toLower_lt_128 {c : Char} (h : c.toNat < 128) :
    (Char.toLower c).toNat < 128 := by
  rw [toLower_eq]
  split
  · next h1 => rw [char_toNat_ofNat (by omega)]; omega
  · exact h

/-- Basic-Latin uppercasing stays basic Latin. -/
theorem toUpper_lt_128 {c : Char} (h : c.toNat < 128) :
    (Char.toUpper c).toNat < 128 := by
  rw [toUpper_eq]
  split
  · next h1 => rw [char_toNat_ofNat (by omega)]; omega
  · exact h

/-- On a basic-Latin character list the full lowercase mapping is the
per-character one. -/
theorem joinLower_ascii (l : List Char) (h : ∀ c ∈ l, c.toNat < 128) :
    (l.map charLowerFull).flatten = l.map Char.toLower := by
  induction l with
  | nil => rfl
  | cons c rest ih =>
    show charLowerFull c ++ (rest.map charLowerFull).flatten =
      Char.toLower c :: rest.map Char.toLower
    rw [charLowerFull_ascii (h c (by simp)),
      ih (fun x hx => h x (by simp [hx]))]
    rfl

/-- On a basic-Latin character list the full uppercase mapping is the
per-character one. -/
theorem joinUpper_ascii (l : List Char) (h : ∀ c ∈ l, c.toNat < 128) :
    (l.map charUpperFull).flatten = l.map Char.toUpper := by
  induction l with
  | nil => rfl
  | cons c rest ih =>
    show charUpperFull c ++ (rest.map charUpperFull).flatten =
      Char.toUpper c :: rest.map Char.toUpper
    rw [charUpperFull_ascii (h c (by simp)),
      ih (fun x hx => h x (by simp [hx]))]
    rfl

/-- On basic-Latin strings `jsLowerFull` is `jsLower`. -/
theorem jsLowerFull_ascii {s : String} (h : ∀ c ∈ s.data, c.toNat < 128) :
    jsLowerFull s = jsLower s := by
  unfold jsLowerFull jsLower
  exact congrArg String.mk (joinLower_ascii s.data h)

/-- On basic-Latin strings `jsUpperFull` is `jsUpper`. -/
theorem jsUpperFull_ascii {s : String} (h : ∀ c ∈ s.data, c.toNat < 128) :
    jsUpperFull s = jsUpper s := by
  unfold jsUpperFull jsUpper
  exact congrArg String.mk (joinUpper_ascii s.data h)

/-- `dropWhile` only looks at the predicate on the list's members. -/
theorem dropWhile_congr_mem {p q : Char → Bool} (l : List Char)
    (h : ∀ c ∈ l, p c = q c) : l.dropWhile p = l.dropWhile q := by
  induction l with
  | nil => rfl
  | cons c rest ih =>
    rw [List.dropWhile_cons, List.dropWhile_cons, h c (by simp)]
    split
    · exact ih (fun x hx => h x (by simp [hx]))
    · rfl

/-- Members of `dropWhile` come from the list. -/
theorem mem_dropWhile {p : Char → Bool} {c : Char} : ∀ {l : List Char},
    c ∈ l.dropWhile p → c ∈ l := by
  intro l
  induction l with
  | nil => exact fun h => h
  | cons a rest ih =>
    rw [List.dropWhile_cons]
    split
    · exact fun h => List.mem_cons_of_mem a (ih h)
    · exact fun h => h

/-- On basic-Latin strings `jsTrimFull` is `jsTrim`. -/
theorem jsTrimFull_ascii {s : String} (h : ∀ c ∈ s.data, c.toNat < 128) :
    jsTrimFull s = jsTrim s := by
  unfold jsTrimFull jsTrim
  apply congrArg String.mk
  apply congrArg List.reverse
  have h1 : s.data.dropWhile isJsSpaceFull = s.data.dropWhile isJsSpace :=
    dropWhile_congr_mem s.data (fun c hc => isJsSpaceFull_ascii (h c hc))
  rw [h1]
  apply dropWhile_congr_mem
  intro c hc
  exact isJsSpaceFull_ascii (h c (mem_dropWhile (List.mem_reverse.mp hc)))

/-- Members of the trimmed string come from the string. -/
theorem mem_jsTrim {s : String} {c : Char} (h : c ∈ (jsTrim s).data) :
    c ∈ s.data := by
  change c ∈ ((s.data.dropWhile isJsSpace).reverse.dropWhile
    isJsSpace).reverse at h
  rw [List.mem_reverse] at h
  have h2 := mem_dropWhile h
  rw [List.mem_reverse] at h2
  exact mem_dropWhile h2

/-- Lowercasing a basic-Latin query commutes through the full trim-lower
preprocessing. -/
theorem trimLowerFull_lower {q : String} (hq : ∀ c ∈ q.data, c.toNat < 128) :
    jsLowerFull (jsTrimFull (jsLowerFull q)) = jsLowerFull (jsTrimFull q) := by
  have hlq : ∀ c ∈ (jsLower q).data, c.toNat < 128 := by
    intro c hc
    change c ∈ q.data.map Char.toLower at hc
    obtain ⟨x, hx, rfl⟩ := List.mem_map.mp hc
    exact toLower_lt_128 (hq x hx)
  have htlq : ∀ c ∈ (jsTrim (jsLower q)).data, c.toNat < 128 :=
    fun c hc => hlq c (mem_jsTrim hc)
  have htq : ∀ c ∈ (jsTrim q).data, c.toNat < 128 :=
    fun c hc => hq c (mem_jsTrim hc)
  rw [jsLowerFull_ascii hq, jsTrimFull_ascii hlq, jsLowerFull_ascii htlq,
    jsTrimFull_ascii hq, jsLowerFull_ascii htq]
  exact trimLower_lower q

/-- Uppercasing a basic-Latin query commutes through the full trim-lower
preprocessing. -/
theorem trimLowerFull_upper {q : String} (hq : ∀ c ∈ q.data, c.toNat < 128) :
    jsLowerFull (jsTrimFull (jsUpperFull q)) = jsLowerFull (jsTrimFull q) := by
  have huq : ∀ c ∈ (jsUpper q).data, c.toNat < 128 := by
    intro c hc
    change c ∈ q.data.map Char.toUpper at hc
    obtain ⟨x, hx, rfl⟩ := List.mem_map.mp hc
    exact toUpper_lt_128 (hq x hx)
  have htuq : ∀ c ∈ (jsTrim (jsUpper q)).data, c.toNat < 128 :=
    fun c hc => huq c (mem_jsTrim hc)
  have htq : ∀ c ∈ (jsTrim q).data, c.toNat < 128 :=
    fun c hc => hq c (mem_jsTrim hc)
  rw [jsUpperFull_ascii hq, jsTrimFull_ascii huq, jsLowerFull_ascii htuq,
    jsTrimFull_ascii hq, jsLowerFull_ascii htq]
  exact trimLower_upper q

/-- Two queries with the same full trimmed lowercasing search
identically. -/
theorem searchResourcesFull_query_congr (R : List Resource) {q₁ q₂ : String}
    (h : jsLowerFull (jsTrimFull q₁) = jsLowerFull (jsTrimFull q₂)) :
    searchResourcesFull R q₁ = searchResourcesFull R q₂ := by
  unfold searchResourcesFull
  dsimp only
  rw [h]

/-- The full-model search filter body as a disjunction of the five field
checks. -/
theorem searchResourcesPredFull_or (t : String) (r : Resource) :
    searchResourcesPredFull t r =
      (jsIncludes (jsLowerFull r.name) t ||
       (match r.nameJa with
        | some s => jsTruthy s && jsIncludes (jsLowerFull s) t
        | none => false) ||
       jsIncludes (jsLowerFull r.description) t ||
       (match r.descriptionLong with
        | some s => jsTruthy s && jsIncludes (jsLowerFull s) t
        | none => false) ||
       r.tags.any fun tag => jsIncludes (jsLowerFull tag) t) := by
  unfold searchResourcesPredFull
  simp only [ite_bool_or, Bool.or_false, Bool.or_assoc]

/-- Against a non-empty needle the truthiness guard on an optional field is
redundant in the full model as well. -/
theorem truthy_includes_full (s t : String) (ht : t.data ≠ []) :
    (jsTruthy s && jsIncludes (jsLowerFull s) t) =
      jsIncludes (jsLowerFull s) t := by
  by_cases hs : s.data = []
  · have h1 : jsTruthy s = false := by
      unfold jsTruthy
      simp [hs]
    have h2 : jsIncludes (jsLowerFull s) t = false := by
      unfold jsIncludes jsLowerFull
      rw [hs]
      simp [List.infix_nil, ht]
    rw [h1, h2]
    rfl
  · have h1 : jsTruthy s = true := by
      unfold jsTruthy
      simp [hs]
    rw [h1, Bool.true_and]

set_option maxHeartbeats 1000000 in
/-- C4 (corrected): over the full model of `trim` / `toLowerCase` /
`toUpperCase`, searching is case-insensitive for basic-Latin queries
(lowercased, uppercased and original queries give the same id list), an
empty or whitespace-only query — Unicode whitespace included — is the
identity, and a query that is non-empty after trimming keeps exactly the
records where the lowercased trimmed query occurs in the lowercased name,
Japanese name (when present), description, long description (when
present), or some lowercased tag.  Unrestricted case-invariance is false
of the program: see the counterexample at `ß`. -/
theorem c4_search_case_and_identity_corrected (R : List Resource)
    (q : String) :
    ((∀ c ∈ q.data, c.toNat < 128) →
      (searchResourcesFull R (jsLowerFull q)).map Resource.id =
        (searchResourcesFull R q).map Resource.id ∧
      (searchResourcesFull R (jsUpperFull q)).map Resource.id =
        (searchResourcesFull R q).map Resource.id) ∧
    searchResourcesFull R "" = R ∧
    searchResourcesFull R "   " = R ∧
    searchResourcesFull R " \u3000 " = R ∧
    ((jsLowerFull (jsTrimFull q)).data ≠ [] → ∀ r : Resource,
      r ∈ searchResourcesFull R q ↔ r ∈ R ∧
        (jsIncludes (jsLowerFull r.name) (jsLowerFull (jsTrimFull q)) =
          true ∨
         (∃ s, r.nameJa = some s ∧
            jsIncludes (jsLowerFull s) (jsLowerFull (jsTrimFull q)) =
              true) ∨
         jsIncludes (jsLowerFull r.description)
           (jsLowerFull (jsTrimFull q)) = true ∨
         (∃ s, r.descriptionLong = some s ∧
            jsIncludes (jsLowerFull s) (jsLowerFull (jsTrimFull q)) =
              true) ∨
         (∃ tag ∈ r.tags,
            jsIncludes (jsLowerFull tag) (jsLowerFull (jsTrimFull q)) =
              true))) := by
  refine ⟨fun hq => ⟨?_, ?_⟩, ?_, ?_, ?_, ?_⟩
  · rw [searchResourcesFull_query_congr R (trimLowerFull_lower hq)]
  · rw [searchResourcesFull_query_congr R (trimLowerFull_upper hq)]
  · unfold searchResourcesFull
    dsimp only
    rw [if_pos (by decide)]
  · unfold searchResourcesFull
    dsimp only
    rw [if_pos (by decide)]
  · unfold searchResourcesFull
    dsimp only
    rw [if_pos (by decide)]
  · intro hne r
    unfold searchResourcesFull
    dsimp only
    rw [if_neg (fun h => hne (List.length_eq_zero.mp h)), List.mem_filter,
      searchResourcesPredFull_or]
    obtain ⟨i, n, nj, d, dl, c, sc, tg, df, pt, pl, u, ra, fe⟩ := r
    simp only [Bool.or_eq_true, List.any_eq_true]
    cases nj <;> cases dl <;> simp [truthy_includes_full _ _ hne] <;> tauto

/-- Counterexample to C4 as stated, over the full string model.
`"ß".toUpperCase()` is `"SS"`, so against a record named `essen` the query
`ß` finds nothing while its uppercasing finds the record: the id sets
differ.  And the ideographic-space query (U+3000) is whitespace-only for
the program, which returns the whole collection — though the query occurs
in no field — so the trimmed-non-empty substring characterization cannot
cover it the way the basic-Latin whitespace class would suggest. -/
theorem c4_search_case_and_identity_counterexample :
    jsUpperFull "ß" = "SS" ∧
    searchResourcesFull [⟨"a", "essen", none, "", none, "apps", "x", [],
      "beginner", "free", ["web"], "u", none, none⟩] "ß" = [] ∧
    searchResourcesFull [⟨"a", "essen", none, "", none, "apps", "x", [],
      "beginner", "free", ["web"], "u", none, none⟩] (jsUpperFull "ß") =
      [⟨"a", "essen", none, "", none, "apps", "x", [],
        "beginner", "free", ["web"], "u", none, none⟩] ∧
    searchResourcesFull [⟨"a", "essen", none, "", none, "apps", "x", [],
      "beginner", "free", ["web"], "u", none, none⟩] "\u3000" =
      [⟨"a", "essen", none, "", none, "apps", "x", [],
        "beginner", "free", ["web"], "u", none, none⟩] ∧
    jsIncludes (jsLowerFull "essen") "\u3000" = false ∧
    (jsLower (jsTrim "\u3000")).data ≠ [] := by
  refine ⟨by decide, by decide, by decide, by decide, by decide, by decide⟩

/-- Witness for the corrected C4: the case-invariance and the non-empty
characterization at a concrete record and a mixed-case query with
surrounding whitespace. -/
theorem c4_search_case_and_identity_corrected_witness :
    let r : Resource := ⟨"a", "Anki", none, "srs", none, "apps",
      "flashcards", ["srs"], "beginner", "free", ["web"], "u", none, none⟩
    (searchResourcesFull [r] (jsUpperFull " ANki")).map Resource.id =
      (searchResourcesFull [r] " ANki").map Resource.id ∧
    (r ∈ searchResourcesFull [r] " ANki" ↔ r ∈ [r] ∧
      (jsIncludes (jsLowerFull r.name)
        (jsLowerFull (jsTrimFull " ANki")) = true ∨
       (∃ s, r.nameJa = some s ∧
          jsIncludes (jsLowerFull s)
            (jsLowerFull (jsTrimFull " ANki")) = true) ∨
       jsIncludes (jsLowerFull r.description)
         (jsLowerFull (jsTrimFull " ANki")) = true ∨
       (∃ s, r.descriptionLong = some s ∧
          jsIncludes (jsLowerFull s)
            (jsLowerFull (jsTrimFull " ANki")) = true) ∨
       (∃ tag ∈ r.tags,
          jsIncludes (jsLowerFull tag)
            (jsLowerFull (jsTrimFull " ANki")) = true))) :=
  ⟨((c4_search_case_and_identity_corrected
      [⟨"a", "Anki", none, "srs", none, "apps", "flashcards", ["srs"],
        "beginner", "free", ["web"], "u", none, none⟩] " ANki").1
      (by decide)).2,
   (c4_search_case_and_identity_corrected
      [⟨"a", "Anki", none, "srs", none, "apps", "flashcards", ["srs"],
        "beginner", "free", ["web"], "u", none, none⟩]
      " ANki").2.2.2.2 (by decide) _⟩

-- ===========================================================================
-- Validator lemmas and claim
-- ===========================================================================

/-- Every member of an enumeration of non-empty strings passes the
non-empty-string check. -/
theorem enum_valid_string {l : List String} {s : String}
    (h : l.contains s = true) (hl : l.all validStringField = true) :
    validStringField s = true :=
  List.all_eq_true.mp hl s (by simpa [List.contains] using h)

/-- C5: the validator never throws (it is a total function in this model);
null/undefined/non-object inputs report exactly the required-field list as
missing; an object carrying none of the required fields reports all of them;
and with every other field well-formed, a category / difficulty / priceType
outside its enumeration, a platforms entry outside the platform enumeration,
or a numeric rating outside [1,5] is reported as exactly that one field in
`invalidFields`. -/
theorem c5_validate_resource_reports
    (v : JsValue)
    (id name description category subcategory : String)
    (tags : List JsValue) (difficulty priceType : String)
    (platforms : List JsValue) (url : String) (qr : Rat) :
    (v.isObjectLike = false →
      validateResource v = ⟨false, REQUIRED_RESOURCE_FIELDS, []⟩) ∧
    (v.isObjectLike = true →
      (∀ f ∈ REQUIRED_RESOURCE_FIELDS, v.get f = none) →
      ∀ f ∈ REQUIRED_RESOURCE_FIELDS, f ∈ (validateResource v).missingFields) ∧
    (validStringField id = true → validStringField name = true →
     validStringField description = true →
     validStringField subcategory = true → validStringField url = true →
     goodTags tags = true → goodPlatforms platforms = true →
     DIFFICULTY_LEVELS.contains difficulty = true →
     PRICE_TYPES.contains priceType = true →
     validStringField category = true →
     CATEGORY_IDS.contains category = false →
     (validateResource (mkResourceObj id name description category subcategory
        tags difficulty priceType platforms url none none)).invalidFields.map
          Prod.fst = ["category"] ∧
     (validateResource (mkResourceObj id name description category subcategory
        tags difficulty priceType platforms url none none)).missingFields
          = []) ∧
    (validStringField id = true → validStringField name = true →
     validStringField description = true →
     validStringField subcategory = true → validStringField url = true →
     goodTags tags = true → goodPlatforms platforms = true →
     CATEGORY_IDS.contains category = true →
     PRICE_TYPES.contains priceType = true →
     validStringField difficulty = true →
     DIFFICULTY_LEVELS.contains difficulty = false →
     (validateResource (mkResourceObj id name description category subcategory
        tags difficulty priceType platforms url none none)).invalidFields.map
          Prod.fst = ["difficulty"] ∧
     (validateResource (mkResourceObj id name description category subcategory
        tags difficulty priceType platforms url none none)).missingFields
          = []) ∧
    (validStringField id = true → validStringField name = true →
     validStringField description = true →
     validStringField subcategory = true → validStringField url = true →
     goodTags tags = true → goodPlatforms platforms = true →
     CATEGORY_IDS.contains category = true →
     DIFFICULTY_LEVELS.contains difficulty = true →
     validStringField priceType = true →
     PRICE_TYPES.contains priceType = false →
     (validateResource (mkResourceObj id name description category subcategory
        tags difficulty priceType platforms url none none)).invalidFields.map
          Prod.fst = ["priceType"] ∧
     (validateResource (mkResourceObj id name description category subcategory
        tags difficulty priceType platforms url none none)).missingFields
          = []) ∧
    (validStringField id = true → validStringField name = true →
     validStringField description = true →
     validStringField subcategory = true → validStringField url = true →
     goodTags tags = true →
     CATEGORY_IDS.contains category = true →
     DIFFICULTY_LEVELS.contains difficulty = true →
     PRICE_TYPES.contains priceType = true →
     platforms ≠ [] → platforms.filter isBadPlatform ≠ [] →
     (validateResource (mkResourceObj id name description category subcategory
        tags difficulty priceType platforms url none none)).invalidFields.map
          Prod.fst = ["platforms"] ∧
     (validateResource (mkResourceObj id name description category subcategory
        tags difficulty priceType platforms url none none)).missingFields
          = []) ∧
    (validStringField id = true → validStringField name = true →
     validStringField description = true →
     validStringField subcategory = true → validStringField url = true →
     goodTags tags = true → goodPlatforms platforms = true →
     CATEGORY_IDS.contains category = true →
     DIFFICULTY_LEVELS.contains difficulty = true →
     PRICE_TYPES.contains priceType = true →
     (qr < 1 ∨ qr > 5) →
     (validateResource (mkResourceObj id name description category subcategory
        tags difficulty priceType platforms url
        (some (.num qr)) none)).invalidFields.map Prod.fst = ["rating"] ∧
     (validateResource (mkResourceObj id name description category subcategory
        tags difficulty priceType platforms url
        (some (.num qr)) none)).missingFields = []) := by
  refine ⟨?_, ?_, ?_, ?_, ?_, ?_, ?_⟩
  · intro h
    cases v <;> first
      | rfl
      | exact absurd h (by simp [JsValue.isObjectLike])
  · intro hobj hnone f hf
    have h01 := hnone "id" (by decide)
    have h02 := hnone "name" (by decide)
    have h03 := hnone "description" (by decide)
    have h04 := hnone "category" (by decide)
    have h05 := hnone "subcategory" (by decide)
    have h06 := hnone "tags" (by decide)
    have h07 := hnone "difficulty" (by decide)
    have h08 := hnone "priceType" (by decide)
    have h09 := hnone "platforms" (by decide)
    have h10 := hnone "url" (by decide)
    unfold validateResource
    rw [if_pos hobj]
    simp only [validateResourceObj, h01, h02, h03, h04, h05, h06, h07, h08,
      h09, h10, isNonEmptyStringProp, isNonEmptyArrayProp]
    fin_cases hf <;>
      simp [h01, h02, h03, h04, h05, h06, h07, h08, h09, h10]
  · intro hid hname hdesc hsub hurl htags hplat hdiff hprice hcat1 hcat2
    have hdiff' := enum_valid_string hdiff (by decide)
    have hprice' := enum_valid_string hprice (by decide)
    unfold validStringField at *
    obtain ⟨htags1, htags2⟩ := Bool.and_eq_true_iff.mp htags
    obtain ⟨hplat1, hplat2⟩ := Bool.and_eq_true_iff.mp hplat
    have hcatm : category ∉ CATEGORY_IDS := by
      simpa [List.contains] using hcat2
    have hdiffm : difficulty ∈ DIFFICULTY_LEVELS := by
      simpa [List.contains] using hdiff
    have hpricem : priceType ∈ PRICE_TYPES := by
      simpa [List.contains] using hprice
    simp [validateResource, mkResourceObj, JsValue.isObjectLike,
      validateResourceObj, JsValue.get, lookupField, isNonEmptyStringProp,
      isNonEmptyArrayProp, strProp, hid, hname, hdesc, hsub, hurl, hdiff',
      hprice', hcat1, hcatm, hdiffm, hpricem, htags2, hplat2,
      List.isEmpty_iff]
    exact ⟨by simpa using htags1, by simpa using hplat1⟩
  · intro hid hname hdesc hsub hurl htags hplat hcat hprice hdiff1 hdiff2
    have hcat' := enum_valid_string hcat (by decide)
    have hprice' := enum_valid_string hprice (by decide)
    unfold validStringField at *
    obtain ⟨htags1, htags2⟩ := Bool.and_eq_true_iff.mp htags
    obtain ⟨hplat1, hplat2⟩ := Bool.and_eq_true_iff.mp hplat
    have hdiffm : difficulty ∉ DIFFICULTY_LEVELS := by
      simpa [List.contains] using hdiff2
    have hcatm : category ∈ CATEGORY_IDS := by
      simpa [List.contains] using hcat
    have hpricem : priceType ∈ PRICE_TYPES := by
      simpa [List.contains] using hprice
    simp [validateResource, mkResourceObj, JsValue.isObjectLike,
      validateResourceObj, JsValue.get, lookupField, isNonEmptyStringProp,
      isNonEmptyArrayProp, strProp, hid, hname, hdesc, hsub, hurl, hcat',
      hprice', hdiff1, hcatm, hdiffm, hpricem, htags2, hplat2,
      List.isEmpty_iff]
    exact ⟨by simpa using htags1, by simpa using hplat1⟩
  · intro hid hname hdesc hsub hurl htags hplat hcat hdiff hprice1 hprice2
    have hcat' := enum_valid_string hcat (by decide)
    have hdiff' := enum_valid_string hdiff (by decide)
    unfold validStringField at *
    obtain ⟨htags1, htags2⟩ := Bool.and_eq_true_iff.mp htags
    obtain ⟨hplat1, hplat2⟩ := Bool.and_eq_true_iff.mp hplat
    have hpricem : priceType ∉ PRICE_TYPES := by
      simpa [List.contains] using hprice2
    have hcatm : category ∈ CATEGORY_IDS := by
      simpa [List.contains] using hcat
    have hdiffm : difficulty ∈ DIFFICULTY_LEVELS := by
      simpa [List.contains] using hdiff
    simp [validateResource, mkResourceObj, JsValue.isObjectLike,
      validateResourceObj, JsValue.get, lookupField, isNonEmptyStringProp,
      isNonEmptyArrayProp, strProp, hid, hname, hdesc, hsub, hurl, hcat',
      hdiff', hprice1, hcatm, hdiffm, hpricem, htags2, hplat2,
      List.isEmpty_iff]
    exact ⟨by simpa using htags1, by simpa using hplat1⟩
  · intro hid hname hdesc hsub hurl htags hcat hdiff hprice hplat1 hplat2
    have hcat' := enum_valid_string hcat (by decide)
    have hdiff' := enum_valid_string hdiff (by decide)
    have hprice' := enum_valid_string hprice (by decide)
    unfold validStringField at *
    obtain ⟨htags1, htags2⟩ := Bool.and_eq_true_iff.mp htags
    have hcatm : category ∈ CATEGORY_IDS := by
      simpa [List.contains] using hcat
    have hdiffm : difficulty ∈ DIFFICULTY_LEVELS := by
      simpa [List.contains] using hdiff
    have hpricem : priceType ∈ PRICE_TYPES := by
      simpa [List.contains] using hprice
    simp [validateResource, mkResourceObj, JsValue.isObjectLike,
      validateResourceObj, JsValue.get, lookupField, isNonEmptyStringProp,
      isNonEmptyArrayProp, strProp, hid, hname, hdesc, hsub, hurl, hcat',
      hdiff', hprice', hcatm, hdiffm, hpricem, htags2, hplat1, hplat2,
      List.isEmpty_iff]
    simpa using htags1
  · intro hid hname hdesc hsub hurl htags hplat hcat hdiff hprice hq
    have hcat' := enum_valid_string hcat (by decide)
    have hdiff' := enum_valid_string hdiff (by decide)
    have hprice' := enum_valid_string hprice (by decide)
    unfold validStringField at *
    obtain ⟨htags1, htags2⟩ := Bool.and_eq_true_iff.mp htags
    obtain ⟨hplat1, hplat2⟩ := Bool.and_eq_true_iff.mp hplat
    have hcatm : category ∈ CATEGORY_IDS := by
      simpa [List.contains] using hcat
    have hdiffm : difficulty ∈ DIFFICULTY_LEVELS := by
      simpa [List.contains] using hdiff
    have hpricem : priceType ∈ PRICE_TYPES := by
      simpa [List.contains] using hprice
    have hq' : (qr < 1 || qr > 5) = true := by
      rcases hq with h | h <;> simp [h]
    simp [validateResource, mkResourceObj, JsValue.isObjectLike,
      validateResourceObj, JsValue.get, lookupField, isNonEmptyStringProp,
      isNonEmptyArrayProp, strProp, hid, hname, hdesc, hsub, hurl, hcat',
      hdiff', hprice', hcatm, hdiffm, hpricem, htags2, hplat2, hq',
      List.isEmpty_iff]
    exact ⟨by simpa using htags1, by simpa using hplat1⟩

/-- Witness for C5: a null input reports the full required-field list, and a
concrete otherwise-valid record with category `"bogus"` reports exactly the
category field as invalid. -/
theorem c5_validate_resource_reports_witness :
    validateResource .null = ⟨false, REQUIRED_RESOURCE_FIELDS, []⟩ ∧
    ((validateResource (mkResourceObj "a" "n" "d" "bogus" "s" [.str "t"]
        "beginner" "free" [.str "web"] "u" none none)).invalidFields.map
          Prod.fst = ["category"] ∧
     (validateResource (mkResourceObj "a" "n" "d" "bogus" "s" [.str "t"]
        "beginner" "free" [.str "web"] "u" none none)).missingFields = []) :=
  ⟨(c5_validate_resource_reports .null "a" "n" "d" "bogus" "s" [.str "t"]
      "beginner" "free" [.str "web"] "u" 0).1 (by decide),
   (c5_validate_resource_reports .null "a" "n" "d" "bogus" "s" [.str "t"]
      "beginner" "free" [.str "web"] "u" 0).2.2.1 (by decide) (by decide)
      (by decide) (by decide) (by decide) (by decide) (by decide) (by decide)
      (by decide) (by decide) (by decide)⟩

-- ===========================================================================
-- Deserialize error behaviour (C6)
-- ===========================================================================

/-- The validation loop accepts exactly when every element is valid. -/
theorem firstInvalidIdx_eq_none {l : List Json} (n : Nat) :
    firstInvalidIdx n l = none ↔ ∀ x ∈ l, isValidStrokeData x = true := by
  induction l generalizing n with
  | nil => simp [firstInvalidIdx]
  | cons x rest ih =>
    unfold firstInvalidIdx
    split
    · next hx =>
      rw [ih (n + 1)]
      simp [hx]
    · next hx =>
      simp only [Bool.not_eq_true] at hx
      simp [hx]

/-- The validation loop reports the first failing index, offset by the
running counter. -/
theorem firstInvalidIdx_eq_some {l : List Json} (n i : Nat)
    (hi : i < l.length) (hbad : isValidStrokeData (l.get ⟨i, hi⟩) = false)
    (hgood : ∀ j : Nat, ∀ hj : j < i,
      isValidStrokeData (l.get ⟨j, Nat.lt_trans hj hi⟩) = true) :
    firstInvalidIdx n l = some (n + i) := by
  induction l generalizing n i with
  | nil => simp at hi
  | cons x rest ih =>
    unfold firstInvalidIdx
    cases i with
    | zero =>
      simp only [List.get] at hbad
      rw [if_neg (by simp [hbad])]
      simp
    | succ k =>
      have hx : isValidStrokeData x = true := hgood 0 (Nat.succ_pos k)
      rw [if_pos hx]
      have := ih (n + 1) k (Nat.lt_of_succ_lt_succ hi)
        (by simpa using hbad)
        (fun j hj => by simpa using hgood (j + 1) (Nat.succ_lt_succ hj))
      rw [this]
      congr 1
      omega

/-- C6: `deserialize` fails exactly on text the JSON model rejects, on a
non-array top level, or on an element failing structural validation; the
error for a failing element names the first offending index; and on success
it returns the parsed array (whose elements all validate). -/
theorem c6_deserialize_error_behaviour (s : String) :
    ((∃ e, deserialize s = .error e) ↔
      (parseJson s.data = none ∨
       (∃ j, parseJson s.data = some j ∧ ∀ l : List Json, j ≠ Json.arr l) ∨
       (∃ l : List Json, parseJson s.data = some (.arr l) ∧
          ∃ x ∈ l, isValidStrokeData x = false))) ∧
    (∀ l : List Json, parseJson s.data = some (.arr l) →
      ∀ i : Nat, ∀ hi : i < l.length,
        isValidStrokeData (l.get ⟨i, hi⟩) = false →
        (∀ j : Nat, ∀ hj : j < i,
          isValidStrokeData (l.get ⟨j, Nat.lt_trans hj hi⟩) = true) →
        deserialize s =
          .error ("Invalid stroke data at index " ++ natToString i)) ∧
    (∀ l : List Json, deserialize s = .ok l →
      parseJson s.data = some (.arr l) ∧
      ∀ x ∈ l, isValidStrokeData x = true) := by
  refine ⟨?_, ?_, ?_⟩
  · unfold deserialize
    rcases hp : parseJson s.data with _ | j
    · simp
    · cases j with
      | arr l =>
        rcases hf : firstInvalidIdx 0 l with _ | i
        · constructor
          · rintro ⟨e, he⟩
            simp [hf] at he
          · rintro (h | ⟨j', hj', hne⟩ | ⟨l', hl', x, hx, hbad⟩)
            · cases h
            · rw [Option.some_inj] at hj'
              exact absurd rfl (hj' ▸ hne l)
            · rw [Option.some_inj] at hl'
              injection hl' with h
              subst h
              exact absurd ((firstInvalidIdx_eq_none 0).mp hf x hx)
                (by simp [hbad])
        · constructor
          · intro
            refine Or.inr (Or.inr ⟨l, rfl, ?_⟩)
            by_contra hall
            push_neg at hall
            have hnone : firstInvalidIdx 0 l = none := by
              rw [firstInvalidIdx_eq_none]
              intro x hx
              simpa using hall x hx
            rw [hnone] at hf
            cases hf
          · intro
            exact ⟨"Invalid stroke data at index " ++ natToString i,
              by simp [hf]⟩
      | null =>
        constructor
        · intro
          exact Or.inr (Or.inl ⟨.null, rfl, by intro l h; cases h⟩)
        · intro
          exact ⟨_, rfl⟩
      | bool b =>
        constructor
        · intro
          exact Or.inr (Or.inl ⟨.bool b, rfl, by intro l h; cases h⟩)
        · intro
          exact ⟨_, rfl⟩
      | num q =>
        constructor
        · intro
          exact Or.inr (Or.inl ⟨.num q, rfl, by intro l h; cases h⟩)
        · intro
          exact ⟨_, rfl⟩
      | str t =>
        constructor
        · intro
          exact Or.inr (Or.inl ⟨.str t, rfl, by intro l h; cases h⟩)
        · intro
          exact ⟨_, rfl⟩
      | obj fs =>
        constructor
        · intro
          exact Or.inr (Or.inl ⟨.obj fs, rfl, by intro l h; cases h⟩)
        · intro
          exact ⟨_, rfl⟩
  · intro l hp i hi hbad hgood
    unfold deserialize
    rw [hp]
    dsimp only
    rw [firstInvalidIdx_eq_some 0 i hi hbad hgood]
    simp
  · intro l hok
    unfold deserialize at hok
    rcases hp : parseJson s.data with _ | j <;> rw [hp] at hok <;>
      try dsimp only at hok
    · cases hok
    · cases j with
      | arr l' =>
        dsimp only at hok
        rcases hf : firstInvalidIdx 0 l' with _ | i <;> rw [hf] at hok <;>
          dsimp only at hok
        · rw [Except.ok.injEq] at hok
          cases hok
          exact ⟨rfl, (firstInvalidIdx_eq_none 0).mp hf⟩
        · cases hok
      | null => cases hok
      | bool b => cases hok
      | num q => cases hok
      | str t => cases hok
      | obj fs => cases hok

/-- Witness for C6: `"[5]"` parses as an array whose first element fails
validation, and `deserialize` reports index 0. -/
theorem c6_deserialize_error_behaviour_witness :
    deserialize "[5]" =
      .error ("Invalid stroke data at index " ++ natToString 0) :=
  (c6_deserialize_error_behaviour "[5]").2.1 [.num 5] (by rfl) 0
    (by decide) (by rfl) (fun j hj => absurd hj (Nat.not_lt_zero j))

-- ===========================================================================
-- Decimal numeral lemmas
-- ===========================================================================

/-- Code of a digit character. -/
theorem digitCharOf_toNat {d : Nat} (h : d < 10) :
    (digitCharOf d).toNat = 48 + d := by
  unfold digitCharOf
  exact char_toNat_ofNat (by omega)

/-- A digit character passes the digit test. -/
theorem isDigitChar_digitCharOf {d : Nat} (h : d < 10) :
    isDigitChar (digitCharOf d) = true := by
  unfold isDigitChar
  rw [digitCharOf_toNat h]
  simp
  omega

/-- Decoding a digit character. -/
theorem digitCharOf_val {d : Nat} (h : d < 10) :
    (digitCharOf d).toNat - 48 = d := by
  rw [digitCharOf_toNat h]
  omega

/-- The fuel-guarded digit printer agrees with `Nat.digits`. -/
theorem natCharsAux_eq : ∀ fuel n, n ≤ fuel →
    natCharsAux fuel n = ((Nat.digits 10 n).map digitCharOf).reverse := by
  intro fuel
  induction fuel with
  | zero =>
    intro n hn
    interval_cases n
    simp [natCharsAux]
  | succ fuel ih =>
    intro n hn
    match n, hn with
    | 0, _ => simp [natCharsAux]
    | m + 1, hn =>
      show natCharsAux fuel ((m + 1) / 10) ++ [digitCharOf ((m + 1) % 10)] = _
      rw [ih ((m + 1) / 10) (by omega)]
      rw [Nat.digits_def' (by norm_num) (Nat.succ_pos m)]
      simp

/-- The printed numeral is the big-endian digit list, rendered. -/
theorem natToChars_eq (n : Nat) :
    natToChars n = (digitsBE n).map digitCharOf := by
  unfold natToChars digitsBE
  split
  · rfl
  · next h =>
    rw [natCharsAux_eq n n (Nat.le_refl n)]
    simp

/-- The digit list is never empty. -/
theorem digitsBE_ne_nil (n : Nat) : digitsBE n ≠ [] := by
  unfold digitsBE
  split
  · simp
  · next h =>
    simp [Nat.digits_ne_nil_iff_ne_zero.mpr h]

/-- Every entry of the digit list is a digit. -/
theorem digitsBE_lt (n : Nat) : ∀ d ∈ digitsBE n, d < 10 := by
  unfold digitsBE
  split
  · simp
  · intro d hd
    exact Nat.digits_lt_base (by norm_num) (List.mem_reverse.mp hd)

/-- Folding digit values from the left continues `Nat.ofDigits`. -/
theorem foldl_digits_eq (l : List Nat) : ∀ acc : Nat,
    l.foldl (fun a d => a * 10 + d) acc =
      acc * 10 ^ l.length + Nat.ofDigits 10 l.reverse := by
  induction l with
  | nil =>
    intro acc
    simp [Nat.ofDigits]
  | cons d t ih =>
    intro acc
    rw [List.foldl_cons, ih (acc * 10 + d), List.reverse_cons,
      Nat.ofDigits_append]
    simp [Nat.ofDigits]
    ring

/-- The value of the printed digit list is the number itself. -/
theorem digitsVal_digitsBE (n : Nat) : digitsVal (digitsBE n) = n := by
  unfold digitsVal digitsBE
  split
  · next h =>
    simp [h]
  · rw [foldl_digits_eq]
    simp [Nat.ofDigits_digits]

/-- Reading the rendered digit list recovers its value and length and stops
at the first non-digit. -/
theorem readDigits_append : ∀ (ds : List Nat), (∀ d ∈ ds, d < 10) →
    ∀ (acc k : Nat) (rest : List Char),
    (∀ c, rest.head? = some c → isDigitChar c = false) →
    readDigits acc k (ds.map digitCharOf ++ rest) =
      (ds.foldl (fun a d => a * 10 + d) acc, k + ds.length, rest) := by
  intro ds
  induction ds with
  | nil =>
    intro _ acc k rest hrest
    cases rest with
    | nil => rfl
    | cons c cs =>
      show readDigits acc k (c :: cs) = _
      unfold readDigits
      rw [if_neg (by simp [hrest c rfl])]
      simp
  | cons d t ih =>
    intro hds acc k rest hrest
    have hd : d < 10 := hds d (by simp)
    show readDigits acc k (digitCharOf d :: (t.map digitCharOf ++ rest)) = _
    unfold readDigits
    rw [if_pos (isDigitChar_digitCharOf hd), digitCharOf_val hd,
      ih (fun x hx => hds x (by simp [hx])) (acc * 10 + d) (k + 1) rest hrest]
    simp only [List.foldl_cons, List.length_cons]
    refine congrArg _ (congrArg (fun x => (x, rest)) ?_)
    omega

-- ===========================================================================
-- Number text round trip
-- ===========================================================================

/-- Stripping factors is exact: `n = p ^ k * m`. -/
theorem stripFactorAux_spec : ∀ fuel p n, n ≤ fuel →
    n = p ^ (stripFactorAux fuel p n).1 * (stripFactorAux fuel p n).2 := by
  intro fuel
  induction fuel with
  | zero =>
    intro p n hn
    interval_cases n
    simp [stripFactorAux]
  | succ fuel ih =>
    intro p n hn
    unfold stripFactorAux
    split
    · next hc =>
      obtain ⟨hp, hn0, hmod⟩ := hc
      have hdiv : n / p ≤ fuel := by
        have := Nat.div_lt_self (Nat.pos_of_ne_zero hn0) hp
        omega
      have hrec := ih p (n / p) hdiv
      have hcancel : p * (n / p) = n :=
        Nat.mul_div_cancel' (Nat.dvd_of_mod_eq_zero hmod)
      calc n = p * (n / p) := hcancel.symm
        _ = p * (p ^ (stripFactorAux fuel p (n / p)).1 *
              (stripFactorAux fuel p (n / p)).2) := by rw [← hrec]
        _ = _ := by ring
    · simp

/-- A denominator with a decimal exponent divides that power of ten. -/
theorem decExp_den_eq {q : Rat} {k : Nat} (hk : decExp q = some k) :
    (q.den : Nat) ∣ 10 ^ k := by
  unfold decExp at hk
  set t := stripFactor 2 q.den with ht
  set f := stripFactor 5 t.2 with hf
  by_cases hs : f.2 = 1
  · rw [if_pos hs, Option.some_inj] at hk
    have h1 : q.den = 2 ^ t.1 * t.2 :=
      stripFactorAux_spec q.den 2 q.den (Nat.le_refl _)
    have h2 : t.2 = 5 ^ f.1 * f.2 :=
      stripFactorAux_spec t.2 5 t.2 (Nat.le_refl _)
    rw [h2, hs, mul_one] at h1
    rw [h1, ← hk]
    have h10 : (10 : Nat) ^ max t.1 f.1 = 2 ^ max t.1 f.1 * 5 ^ max t.1 f.1 := by
      rw [← Nat.mul_pow]
    rw [h10]
    exact Nat.mul_dvd_mul (Nat.pow_dvd_pow 2 (Nat.le_max_left _ _))
      (Nat.pow_dvd_pow 5 (Nat.le_max_right _ _))
  · rw [if_neg hs] at hk
    cases hk

/-- A digit character is not the minus sign. -/
theorem digitCharOf_ne_minus {d : Nat} (h : d < 10) : digitCharOf d ≠ '-' := by
  intro he
  have h1 := digitCharOf_toNat h
  rw [he] at h1
  have h2 : ('-' : Char).toNat = 45 := rfl
  omega

/-- A separated remainder does not start with a digit. -/
theorem sepOk_head {rest : List Char} (h : sepOk rest = true) :
    ∀ c, rest.head? = some c → isDigitChar c = false := by
  intro c hc
  cases rest with
  | nil => cases hc
  | cons x xs =>
    rw [List.head?_cons, Option.some_inj] at hc
    subst hc
    unfold sepOk at h
    exact (Bool.and_eq_true_iff.mp h).1 |> fun hh => by simpa using hh

/-- A separated remainder does not start with a decimal point. -/
theorem sepOk_head_ne_dot {rest : List Char} (h : sepOk rest = true) :
    ∀ c, rest.head? = some c → c ≠ '.' := by
  intro c hc
  cases rest with
  | nil => cases hc
  | cons x xs =>
    rw [List.head?_cons, Option.some_inj] at hc
    subst hc
    unfold sepOk at h
    have := (Bool.and_eq_true_iff.mp h).2
    simpa using this

/-- Leading zeros contribute nothing to a digit fold. -/
theorem foldl_zero_replicate (z : Nat) :
    List.foldl (fun a d => a * 10 + d) 0 (List.replicate z 0) = 0 := by
  induction z with
  | zero => rfl
  | succ n ih => simpa [List.replicate_succ] using ih

/-- Leading zeros contribute nothing to a digit value. -/
theorem digitsVal_replicate_zero (z : Nat) (ds : List Nat) :
    digitsVal (List.replicate z 0 ++ ds) = digitsVal ds := by
  unfold digitsVal
  rw [List.foldl_append, foldl_zero_replicate]

/-- A number below `10 ^ k` has at most `k` digits. -/
theorem digitsBE_length_le {f k : Nat} (hk : 0 < k) (hf : f < 10 ^ k) :
    (digitsBE f).length ≤ k := by
  unfold digitsBE
  split
  · simpa using hk
  · next h =>
    rw [List.length_reverse, Nat.digits_len 10 f (by norm_num) h]
    have := Nat.log_lt_of_lt_pow h hf
    omega

/-- Reading a printed decimal numeral (integer digits and optional padded
fraction) recovers its value. -/
theorem parseNumBody_print (sgn : Bool) (i fk f : Nat) (hf : f < 10 ^ fk)
    (rest : List Char) (hrest : sepOk rest = true) :
    parseNumBody sgn (natToChars i ++
      (if fk = 0 then ([] : List Char)
       else '.' :: (List.replicate (fk - (natToChars f).length) '0' ++
         natToChars f)) ++ rest) =
      some (Rat.divInt
        (if sgn then -(((i * 10 ^ fk + f) : Nat) : Int)
         else (((i * 10 ^ fk + f) : Nat) : Int)) ((10 : Int) ^ fk), rest) := by
  rcases hBE : digitsBE i with _ | ⟨d, ds⟩
  · exact absurd hBE (digitsBE_ne_nil i)
  have hd10 : d < 10 := digitsBE_lt i d (by rw [hBE]; simp)
  have hnat : natToChars i = digitCharOf d :: List.map digitCharOf ds := by
    rw [natToChars_eq, hBE]
    rfl
  set fracChars : List Char :=
    (if fk = 0 then ([] : List Char)
     else '.' :: (List.replicate (fk - (natToChars f).length) '0' ++
       natToChars f)) with hfracChars
  have hfhead : ∀ c, (fracChars ++ rest).head? = some c →
      isDigitChar c = false := by
    intro c hc
    rw [hfracChars] at hc
    by_cases h0 : fk = 0
    · rw [if_pos h0] at hc
      exact sepOk_head hrest c hc
    · rw [if_neg h0] at hc
      simp only [List.cons_append, List.head?_cons, Option.some_inj] at hc
      subst hc
      rfl
  have hreadInt : readDigits 0 0 (natToChars i ++ (fracChars ++ rest)) =
      (i, (digitsBE i).length, fracChars ++ rest) := by
    rw [natToChars_eq]
    rw [readDigits_append (digitsBE i) (digitsBE_lt i) 0 0 _ hfhead]
    have hv : (digitsBE i).foldl (fun a d => a * 10 + d) 0 = i :=
      digitsVal_digitsBE i
    rw [hv]
    simp
  show parseNumBody sgn (natToChars i ++ fracChars ++ rest) = _
  have hshape : natToChars i ++ fracChars ++ rest =
      digitCharOf d :: (List.map digitCharOf ds ++ (fracChars ++ rest)) := by
    rw [hnat]
    simp
  rw [hshape]
  unfold parseNumBody
  dsimp only
  rw [if_pos (isDigitChar_digitCharOf hd10)]
  rw [show digitCharOf d :: (List.map digitCharOf ds ++ (fracChars ++ rest)) =
    natToChars i ++ (fracChars ++ rest) by rw [hnat]; simp]
  rw [hreadInt]
  dsimp only
  by_cases h0 : fk = 0
  · have hfc : fracChars = [] := by rw [hfracChars, if_pos h0]
    have hf0 : f = 0 := by
      subst h0
      simpa using hf
    rw [hfc]
    subst h0
    subst hf0
    cases rest with
    | nil =>
      norm_num
    | cons x xs =>
      have hx : x ≠ '.' := sepOk_head_ne_dot hrest x rfl
      rw [List.nil_append]
      dsimp only
      rw [if_neg hx]
      norm_num
  · have hfc : fracChars = '.' ::
        (List.replicate (fk - (natToChars f).length) '0' ++ natToChars f) := by
      rw [hfracChars, if_neg h0]
    set z := fk - (natToChars f).length with hz
    have hfds : List.replicate z '0' ++ natToChars f =
        (List.replicate z 0 ++ digitsBE f).map digitCharOf := by
      rw [natToChars_eq, List.map_append, List.map_replicate]
      rfl
    rcases hcons : List.replicate z 0 ++ digitsBE f with _ | ⟨fd, fds⟩
    · exact absurd (List.append_eq_nil.mp hcons).2 (digitsBE_ne_nil f)
    have hfd10 : fd < 10 := by
      have : fd ∈ List.replicate z 0 ++ digitsBE f := by rw [hcons]; simp
      rcases List.mem_append.mp this with hm | hm
      · have := List.eq_of_mem_replicate hm
        omega
      · exact digitsBE_lt f fd hm
    have hL : (digitsBE f).length ≤ fk :=
      digitsBE_length_le (Nat.pos_of_ne_zero h0) hf
    have hlen : (List.replicate z 0 ++ digitsBE f).length = fk := by
      rw [List.length_append, List.length_replicate, hz, natToChars_eq,
        List.length_map]
      omega
    have hreadFrac : readDigits 0 0
        ((List.replicate z 0 ++ digitsBE f).map digitCharOf ++ rest) =
        (f, fk, rest) := by
      rw [readDigits_append _ (fun d hd => by
          rcases List.mem_append.mp hd with hm | hm
          · have := List.eq_of_mem_replicate hm
            omega
          · exact digitsBE_lt f d hm) 0 0 rest (sepOk_head hrest)]
      have hv : (List.replicate z 0 ++ digitsBE f).foldl
          (fun a d => a * 10 + d) 0 = f := by
        have h2 := digitsVal_replicate_zero z (digitsBE f)
        rw [digitsVal_digitsBE] at h2
        unfold digitsVal at h2
        exact h2
      rw [hv, hlen]
      simp
    rw [hfc, List.cons_append]
    dsimp only
    rw [if_pos rfl]
    have hrest1 : (List.replicate z '0' ++ natToChars f) ++ rest =
        digitCharOf fd :: (fds.map digitCharOf ++ rest) := by
      rw [hfds, hcons]
      simp
    rw [hrest1]
    dsimp only
    rw [if_pos (isDigitChar_digitCharOf hfd10)]
    rw [show digitCharOf fd :: (fds.map digitCharOf ++ rest) =
      (List.replicate z 0 ++ digitsBE f).map digitCharOf ++ rest by
        rw [hcons]
        simp]
    rw [hreadFrac]


/-- Reading a printed signed decimal numeral recovers its value. -/
theorem parseNum_print (neg : Bool) (i fk f : Nat) (hf : f < 10 ^ fk)
    (rest : List Char) (hrest : sepOk rest = true) :
    parseNum ((if neg then ['-'] else []) ++ (natToChars i ++
      (if fk = 0 then ([] : List Char)
       else '.' :: (List.replicate (fk - (natToChars f).length) '0' ++
         natToChars f)) ++ rest)) =
      some (Rat.divInt
        (if neg then -(((i * 10 ^ fk + f) : Nat) : Int)
         else (((i * 10 ^ fk + f) : Nat) : Int)) ((10 : Int) ^ fk), rest) := by
  rcases hBE : digitsBE i with _ | ⟨d, ds⟩
  · exact absurd hBE (digitsBE_ne_nil i)
  have hd10 : d < 10 := digitsBE_lt i d (by rw [hBE]; simp)
  have hnat : natToChars i = digitCharOf d :: List.map digitCharOf ds := by
    rw [natToChars_eq, hBE]
    rfl
  by_cases hneg : neg
  · subst hneg
    rw [if_pos (show (true = true) from rfl)]
    show parseNum ('-' :: _) = _
    unfold parseNum
    dsimp only
    rw [if_pos (show ('-' : Char) = '-' from rfl)]
    have hb := parseNumBody_print true i fk f hf rest hrest
    rw [if_pos (show (true = true) from rfl)] at hb
    exact hb
  · have hfalse : neg = false := by simpa using hneg
    subst hfalse
    rw [if_neg (show ¬(false = true) by decide)]
    rw [List.nil_append]
    have hshape : natToChars i ++
        (if fk = 0 then ([] : List Char)
         else '.' :: (List.replicate (fk - (natToChars f).length) '0' ++
           natToChars f)) ++ rest =
        digitCharOf d :: (List.map digitCharOf ds ++
          ((if fk = 0 then ([] : List Char)
            else '.' :: (List.replicate (fk - (natToChars f).length) '0' ++
              natToChars f)) ++ rest)) := by
      rw [hnat]
      simp
    rw [hshape]
    unfold parseNum
    dsimp only
    rw [if_neg (digitCharOf_ne_minus hd10)]
    rw [← hshape]
    have hb := parseNumBody_print false i fk f hf rest hrest
    rw [if_neg (show ¬(false = true) by decide)] at hb
    exact hb

/-- Reading the printed form of a decimal rational recovers the rational
exactly. -/
theorem parseNum_ratToChars {q : Rat} {k : Nat} (hk : decExp q = some k)
    (rest : List Char) (hrest : sepOk rest = true) :
    parseNum (ratToChars q ++ rest) = some (q, rest) := by
  have hdvdN : (q.den : Nat) ∣ 10 ^ k := decExp_den_eq hk
  have hdvd : ((q.den : Int)) ∣ q.num * (10 : Int) ^ k := by
    have h1 : ((q.den : Int)) ∣ ((10 : Int) ^ k) := by
      have h2 := Int.natCast_dvd_natCast.mpr hdvdN
      push_cast at h2
      exact h2
    exact Dvd.dvd.mul_left h1 q.num
  set m : Int := Int.ediv (q.num * (10 : Int) ^ k) (q.den : Int) with hm
  have hexact : m * (q.den : Int) = q.num * (10 : Int) ^ k := by
    rw [hm]
    exact Int.ediv_mul_cancel hdvd
  have hden0 : (q.den : Int) ≠ 0 := by
    have := q.den_pos
    omega
  have hq : Rat.divInt m ((10 : Int) ^ k) = q := by
    have h10 : ((10 : Int) ^ k) ≠ 0 := by positivity
    rw [show q = Rat.divInt q.num (q.den : Int) from (Rat.num_divInt_den q).symm]
    rw [Rat.divInt_eq_divInt h10 hden0]
    rw [hexact]
  set a : Nat := m.natAbs with ha
  unfold ratToChars
  rw [hk]
  dsimp only
  rw [← hm, ← ha]
  by_cases h0 : k = 0
  · subst h0
    rw [if_pos (show (0 : Nat) = 0 from rfl)]
    by_cases hneg : m < 0
    · have hvm : -((a : Nat) : Int) = m := by
        rw [ha]
        omega
      rw [if_pos hneg]
      have hb := parseNum_print true a 0 0 (by norm_num) rest hrest
      rw [if_pos (show (true = true) from rfl),
        if_pos (show (0 : Nat) = 0 from rfl), List.append_nil,
        if_pos (show (true = true) from rfl)] at hb
      have hcast : ((a * 10 ^ 0 + 0 : Nat) : Int) = ((a : Nat) : Int) := by
        push_cast
        ring
      rw [hcast, hvm, hq] at hb
      simpa using hb
    · have hvm : (((a : Nat)) : Int) = m := by
        rw [ha]
        omega
      rw [if_neg hneg]
      have hb := parseNum_print false a 0 0 (by norm_num) rest hrest
      rw [if_neg (show ¬(false = true) by decide),
        if_pos (show (0 : Nat) = 0 from rfl), List.append_nil,
        if_neg (show ¬(false = true) by decide)] at hb
      have hcast : ((a * 10 ^ 0 + 0 : Nat) : Int) = ((a : Nat) : Int) := by
        push_cast
        ring
      rw [hcast, hvm, hq] at hb
      simpa using hb
  · rw [if_neg h0]
    have hfr : a % 10 ^ k < 10 ^ k := Nat.mod_lt a (by positivity)
    by_cases hneg : m < 0
    · have hvm : -((a : Nat) : Int) = m := by
        rw [ha]
        omega
      rw [if_pos hneg]
      have hb := parseNum_print true (a / 10 ^ k) k (a % 10 ^ k) hfr rest hrest
      rw [if_pos (show (true = true) from rfl), if_neg h0,
        if_pos (show (true = true) from rfl)] at hb
      have hv : a / 10 ^ k * 10 ^ k + a % 10 ^ k = a := by
        rw [Nat.mul_comm]
        exact Nat.div_add_mod a (10 ^ k)
      rw [hv, hvm, hq] at hb
      simpa using hb
    · have hvm : (((a : Nat)) : Int) = m := by
        rw [ha]
        omega
      rw [if_neg hneg]
      have hb := parseNum_print false (a / 10 ^ k) k (a % 10 ^ k) hfr rest hrest
      rw [if_neg (show ¬(false = true) by decide), if_neg h0,
        if_neg (show ¬(false = true) by decide)] at hb
      have hv : a / 10 ^ k * 10 ^ k + a % 10 ^ k = a := by
        rw [Nat.mul_comm]
        exact Nat.div_add_mod a (10 ^ k)
      rw [hv, hvm, hq] at hb
      simpa using hb

-- ===========================================================================
-- String text round trip
-- ===========================================================================

/-- Hexadecimal digit characters decode to their value. -/
theorem hexVal_hexCharOf {d : Nat} (h : d < 16) :
    hexVal (hexCharOf d) = some d := by
  unfold hexVal hexCharOf
  by_cases h10 : d < 10
  · rw [if_pos h10, char_toNat_ofNat (by omega), if_pos (by omega)]
    congr 1
    omega
  · rw [if_neg h10, char_toNat_ofNat (by omega), if_neg (by omega),
      if_pos (by omega)]
    congr 1
    omega

/-- A closing quote ends the string body. -/
theorem parseStrBody_cons_quote (cs : List Char) :
    parseStrBody ('"' :: cs) = some ([], cs) := by
  unfold parseStrBody
  rw [if_pos rfl]

/-- One decoded simple escape prepends its character. -/
theorem parseStrBody_cons_esc (e c' : Char) (he : e ≠ 'u')
    (hd : (if e = '"' then some '"'
      else if e = '\\' then some '\\'
      else if e = '/' then some '/'
      else if e = 'b' then some (Char.ofNat 8)
      else if e = 't' then some (Char.ofNat 9)
      else if e = 'n' then some (Char.ofNat 10)
      else if e = 'f' then some (Char.ofNat 12)
      else if e = 'r' then some (Char.ofNat 13)
      else none) = some c') (cs : List Char) :
    parseStrBody ('\\' :: e :: cs) =
      (match parseStrBody cs with
       | some (s, r) => some (c' :: s, r)
       | none => none) := by
  conv_lhs => unfold parseStrBody
  rw [if_neg (show ¬('\\' = '"') by decide),
    if_pos (show ('\\' : Char) = '\\' from rfl)]
  dsimp only
  rw [if_neg he, hd]

/-- One unescaped character prepends itself. -/
theorem parseStrBody_cons_plain {c : Char} (h1 : c ≠ '"') (h2 : c ≠ '\\')
    (h3 : ¬c.toNat < 32) (cs : List Char) :
    parseStrBody (c :: cs) =
      (match parseStrBody cs with
       | some (s, r) => some (c :: s, r)
       | none => none) := by
  conv_lhs => unfold parseStrBody
  rw [if_neg h1, if_neg h2, if_neg h3]

/-- Reading an escaped string body up to its closing quote recovers the
original characters. -/
theorem parseStrBody_escape : ∀ (s rest : List Char),
    parseStrBody (escapeList s ++ '"' :: rest) = some (s, rest) := by
  intro s
  induction s with
  | nil =>
    intro rest
    show parseStrBody ('"' :: rest) = _
    rw [parseStrBody_cons_quote]
  | cons c cs ih =>
    intro rest
    rw [show escapeList (c :: cs) ++ '"' :: rest =
      escapeChar c ++ (escapeList cs ++ '"' :: rest) by
        show (escapeChar c ++ escapeList cs) ++ _ = _
        rw [List.append_assoc]]
    unfold escapeChar
    by_cases h1 : c = '"'
    · subst h1
      rw [if_pos rfl]
      show parseStrBody ('\\' :: '"' :: (escapeList cs ++ '"' :: rest)) = _
      rw [parseStrBody_cons_esc _ '"' (by decide) (by decide), ih]
    · rw [if_neg h1]
      by_cases h2 : c = '\\'
      · subst h2
        rw [if_pos rfl]
        show parseStrBody ('\\' :: '\\' :: (escapeList cs ++ '"' :: rest)) = _
        rw [parseStrBody_cons_esc _ '\\' (by decide) (by decide), ih]
      · rw [if_neg h2]
        by_cases h3 : c.toNat = 8
        · rw [if_pos h3]
          show parseStrBody ('\\' :: 'b' :: (escapeList cs ++ '"' :: rest)) = _
          rw [parseStrBody_cons_esc _ (Char.ofNat 8) (by decide) (by decide),
            ih, show Char.ofNat 8 = c from h3 ▸ char_ofNat_toNat c]
        · rw [if_neg h3]
          by_cases h4 : c.toNat = 9
          · rw [if_pos h4]
            show parseStrBody
              ('\\' :: 't' :: (escapeList cs ++ '"' :: rest)) = _
            rw [parseStrBody_cons_esc _ (Char.ofNat 9) (by decide) (by decide),
              ih, show Char.ofNat 9 = c from h4 ▸ char_ofNat_toNat c]
          · rw [if_neg h4]
            by_cases h5 : c.toNat = 10
            · rw [if_pos h5]
              show parseStrBody
                ('\\' :: 'n' :: (escapeList cs ++ '"' :: rest)) = _
              rw [parseStrBody_cons_esc _ (Char.ofNat 10) (by decide) (by decide),
                ih, show Char.ofNat 10 = c from h5 ▸ char_ofNat_toNat c]
            · rw [if_neg h5]
              by_cases h6 : c.toNat = 12
              · rw [if_pos h6]
                show parseStrBody
                  ('\\' :: 'f' :: (escapeList cs ++ '"' :: rest)) = _
                rw [parseStrBody_cons_esc _ (Char.ofNat 12) (by decide) (by decide),
                  ih, show Char.ofNat 12 = c from h6 ▸ char_ofNat_toNat c]
              · rw [if_neg h6]
                by_cases h7 : c.toNat = 13
                · rw [if_pos h7]
                  show parseStrBody
                    ('\\' :: 'r' :: (escapeList cs ++ '"' :: rest)) = _
                  rw [parseStrBody_cons_esc _ (Char.ofNat 13) (by decide) (by decide),
                    ih, show Char.ofNat 13 = c from h7 ▸ char_ofNat_toNat c]
                · rw [if_neg h7]
                  by_cases h8 : c.toNat < 32
                  · rw [if_pos h8]
                    have hhi : c.toNat / 16 < 16 := by omega
                    have hlo : c.toNat % 16 < 16 := by omega
                    show parseStrBody ('\\' :: 'u' :: '0' :: '0' ::
                      hexCharOf (c.toNat / 16) :: hexCharOf (c.toNat % 16) ::
                      (escapeList cs ++ '"' :: rest)) = _
                    unfold parseStrBody
                    rw [if_neg (show ¬('\\' = '"') by decide),
                      if_pos (show ('\\' : Char) = '\\' from rfl)]
                    dsimp only
                    rw [if_pos (show ('u' : Char) = 'u' from rfl)]
                    try dsimp only
                    rw [show hexVal '0' = some 0 from rfl,
                      hexVal_hexCharOf hhi, hexVal_hexCharOf hlo]
                    try dsimp only
                    rw [show ((0 * 16 + 0) * 16 + c.toNat / 16) * 16 +
                      c.toNat % 16 = c.toNat by omega]
                    rw [if_pos (show c.toNat < 0xd800 by omega)]
                    rw [ih, char_ofNat_toNat]
                  · rw [if_neg h8]
                    show parseStrBody
                      (c :: (escapeList cs ++ '"' :: rest)) = _
                    rw [parseStrBody_cons_plain h1 h2 h8, ih]

theorem dropWhile_cons_not {p : Char → Bool} {a : Char} (h : p a = false)
    (l : List Char) : List.dropWhile p (a :: l) = a :: l := by
  simp [List.dropWhile, h]

theorem parseVal_step_null (fuel : Nat) (rest : List Char) :
    parseVal (fuel + 1) ('n' :: 'u' :: 'l' :: 'l' :: rest) =
      some (.null, rest) := by
  unfold parseVal
  rw [dropWhile_cons_not (by decide)]
  dsimp only
  rw [if_pos rfl]
  rfl

theorem parseVal_step_true (fuel : Nat) (rest : List Char) :
    parseVal (fuel + 1) ('t' :: 'r' :: 'u' :: 'e' :: rest) =
      some (.bool true, rest) := by
  unfold parseVal
  rw [dropWhile_cons_not (by decide)]
  dsimp only
  rw [if_neg (by decide), if_pos rfl]
  rfl

theorem parseVal_step_false (fuel : Nat) (rest : List Char) :
    parseVal (fuel + 1) ('f' :: 'a' :: 'l' :: 's' :: 'e' :: rest) =
      some (.bool false, rest) := by
  unfold parseVal
  rw [dropWhile_cons_not (by decide)]
  dsimp only
  rw [if_neg (by decide), if_neg (by decide), if_pos rfl]
  rfl

theorem parseVal_step_str (fuel : Nat) (rest : List Char) :
    parseVal (fuel + 1) ('"' :: rest) =
      (match parseStrBody rest with
       | some (s, r) => some (.str ⟨s⟩, r)
       | none => none) := by
  unfold parseVal
  rw [dropWhile_cons_not (by decide)]
  dsimp only
  rw [if_neg (by decide), if_neg (by decide), if_neg (by decide), if_pos rfl]

theorem parseVal_step_arr (fuel : Nat) (rest : List Char) :
    parseVal (fuel + 1) ('[' :: rest) =
      (match rest.dropWhile isJsonWs with
       | c' :: rest' =>
         if c' = ']' then some (.arr [], rest')
         else
           match parseItems fuel rest with
           | some (l, rest'') => some (.arr l, rest'')
           | none => none
       | [] => none) := by
  unfold parseVal
  rw [dropWhile_cons_not (by decide)]
  dsimp only
  rw [if_neg (by decide), if_neg (by decide), if_neg (by decide),
    if_neg (by decide), if_pos rfl]

theorem parseVal_step_obj (fuel : Nat) (rest : List Char) :
    parseVal (fuel + 1) (lbraceChar :: rest) =
      (match rest.dropWhile isJsonWs with
       | c' :: rest' =>
         if c' = rbraceChar then some (.obj [], rest')
         else
           match parseFields fuel rest with
           | some (l, rest'') => some (.obj l, rest'')
           | none => none
       | [] => none) := by
  unfold parseVal
  rw [dropWhile_cons_not (by decide)]
  dsimp only
  rw [if_neg (by decide), if_neg (by decide), if_neg (by decide),
    if_neg (by decide), if_neg (by decide), if_pos rfl]

theorem numHead_not_ws {c : Char} (h : c = '-' ∨ isDigitChar c = true) :
    isJsonWs c = false := by
  rcases h with h | h
  · subst h
    decide
  · unfold isDigitChar at h
    rw [Bool.and_eq_true_iff] at h
    obtain ⟨h1, h2⟩ := h
    simp only [decide_eq_true_eq] at h1 h2
    unfold isJsonWs
    simp only [Bool.or_eq_false_iff, decide_eq_false_iff_not]
    omega

theorem numHead_ne {c : Char} (h : c = '-' ∨ isDigitChar c = true)
    {x : Char} (hx : isDigitChar x = false) (hm : x ≠ '-') : c ≠ x := by
  intro he
  subst he
  rcases h with h | h
  · exact hm h
  · rw [h] at hx
    cases hx

theorem parseVal_step_num (fuel : Nat) {c : Char}
    (h : c = '-' ∨ isDigitChar c = true) (rest : List Char) :
    parseVal (fuel + 1) (c :: rest) =
      (match parseNum (c :: rest) with
       | some (q, rest') => some (.num q, rest')
       | none => none) := by
  unfold parseVal
  rw [dropWhile_cons_not (numHead_not_ws h)]
  dsimp only
  rw [if_neg (numHead_ne h (by decide) (by decide)),
    if_neg (numHead_ne h (by decide) (by decide)),
    if_neg (numHead_ne h (by decide) (by decide)),
    if_neg (numHead_ne h (by decide) (by decide)),
    if_neg (numHead_ne h (by decide) (by decide)),
    if_neg (numHead_ne h (by decide) (by decide))]
  rw [if_pos (by
    rcases h with h | h
    · rw [h]
      decide
    · simp [h])]

theorem natToChars_head (n : Nat) :
    ∃ d ds, natToChars n = digitCharOf d :: ds ∧ d < 10 := by
  rcases hBE : digitsBE n with _ | ⟨d, ds⟩
  · exact absurd hBE (digitsBE_ne_nil n)
  refine ⟨d, ds.map digitCharOf, ?_, digitsBE_lt n d (by rw [hBE]; simp)⟩
  rw [natToChars_eq, hBE]
  rfl

/-- A printed number starts with a minus sign or a digit. -/
theorem ratToChars_head (q : Rat) :
    ∃ c cs, ratToChars q = c :: cs ∧ (c = '-' ∨ isDigitChar c = true) := by
  unfold ratToChars
  rcases decExp q with _ | k
  · exact ⟨'0', [], rfl, Or.inr (by decide)⟩
  · dsimp only
    by_cases hneg : Int.ediv (q.num * (10 : Int) ^ k) (q.den : Int) < 0
    · rw [if_pos hneg]
      by_cases h0 : k = 0
      · rw [if_pos h0]
        exact ⟨'-', _, rfl, Or.inl rfl⟩
      · rw [if_neg h0]
        exact ⟨'-', _, rfl, Or.inl rfl⟩
    · rw [if_neg hneg]
      by_cases h0 : k = 0
      · rw [if_pos h0]
        obtain ⟨d, ds, hd, hd10⟩ := natToChars_head
          (Int.ediv (q.num * (10 : Int) ^ k) (q.den : Int)).natAbs
        rw [List.nil_append, hd]
        exact ⟨_, _, rfl, Or.inr (isDigitChar_digitCharOf hd10)⟩
      · rw [if_neg h0]
        obtain ⟨d, ds, hd, hd10⟩ := natToChars_head
          ((Int.ediv (q.num * (10 : Int) ^ k) (q.den : Int)).natAbs / 10 ^ k)
        rw [List.nil_append, hd]
        exact ⟨_, _, rfl, Or.inr (isDigitChar_digitCharOf hd10)⟩

/-- The printed form of a document starts with a non-whitespace character
other than a closing bracket. -/
theorem printJson_head (j : Json) :
    ∃ c cs, printJson j = c :: cs ∧ isJsonWs c = false ∧ c ≠ ']' := by
  cases j with
  | null => exact ⟨'n', _, rfl, by decide, by decide⟩
  | bool b =>
    cases b
    · exact ⟨'f', _, rfl, by decide, by decide⟩
    · exact ⟨'t', _, rfl, by decide, by decide⟩
  | num q =>
    obtain ⟨c, cs, hc, hd⟩ := ratToChars_head q
    exact ⟨c, cs, hc, numHead_not_ws hd, numHead_ne hd (by decide) (by decide)⟩
  | str s => exact ⟨'"', _, rfl, by decide, by decide⟩
  | arr l => exact ⟨'[', _, rfl, by decide, by decide⟩
  | obj fs => exact ⟨lbraceChar, _, rfl, by decide, by decide⟩

/-- Every document costs at least one unit of fuel. -/
theorem jsonSize_pos (j : Json) : 1 ≤ jsonSize j := by
  cases j <;> (simp only [jsonSize]; omega)

theorem sepOk_cons (c : Char) (t : List Char) :
    sepOk (c :: t) = (!isDigitChar c && c != '.') := rfl

theorem printItems_cons_head (j : Json) (js : List Json) (tail : List Char) :
    ∃ c t, printItems (j :: js) ++ tail = c :: t ∧ isJsonWs c = false ∧
      c ≠ ']' := by
  obtain ⟨c, cs, hpj, hws, hne⟩ := printJson_head j
  cases js with
  | nil => exact ⟨c, cs ++ tail, by simp [printItems, hpj], hws, hne⟩
  | cons j' js' =>
    exact ⟨c, cs ++ ',' :: (printItems (j' :: js') ++ tail),
      by simp [printItems, hpj], hws, hne⟩

theorem printFields_cons_head (k : String) (v : Json)
    (fs : List (String × Json)) (tail : List Char) :
    ∃ t, printFields ((k, v) :: fs) ++ tail = '"' :: t := by
  cases fs with
  | nil =>
    exact ⟨escapeList k.data ++ '"' :: ':' :: (printJson v ++ tail),
      by simp [printFields, printStr]⟩
  | cons f fs' =>
    exact ⟨escapeList k.data ++ '"' ::
        ':' :: (printJson v ++ ',' :: (printFields (f :: fs') ++ tail)),
      by simp [printFields, printStr]⟩

/-- The printer–parser round trip, by induction on fuel: with enough fuel,
parsing the printed form of a decimal document (with a non-extending
continuation) returns the document and the continuation; likewise for
non-empty item and field lists up to their closing bracket. -/
theorem parse_print : ∀ fuel : Nat,
    (∀ j rest, jsonDecimal j = true → jsonSize j ≤ fuel → sepOk rest = true →
      parseVal fuel (printJson j ++ rest) = some (j, rest)) ∧
    (∀ l rest, l ≠ [] → jsonDecimalItems l = true → jsonItemsSize l ≤ fuel →
      parseItems fuel (printItems l ++ ']' :: rest) = some (l, rest)) ∧
    (∀ l rest, l ≠ [] → jsonDecimalFields l = true → jsonFieldsSize l ≤ fuel →
      parseFields fuel (printFields l ++ rbraceChar :: rest) =
        some (l, rest)) := by
  intro fuel
  induction fuel with
  | zero =>
    refine ⟨?_, ?_, ?_⟩
    · intro j rest _ hsz _
      exact absurd hsz (by have := jsonSize_pos j; omega)
    · intro l rest hne _ hsz
      cases l with
      | nil => exact absurd rfl hne
      | cons j js => simp only [jsonItemsSize] at hsz; omega
    · intro l rest hne _ hsz
      cases l with
      | nil => exact absurd rfl hne
      | cons f fs =>
        obtain ⟨k, v⟩ := f
        simp only [jsonFieldsSize] at hsz
        omega
  | succ n ih =>
    obtain ⟨ihV, ihI, ihF⟩ := ih
    refine ⟨?_, ?_, ?_⟩
    · intro j rest hdec hsz hsep
      cases j with
      | null => exact parseVal_step_null n rest
      | bool b =>
        cases b
        · exact parseVal_step_false n rest
        · exact parseVal_step_true n rest
      | num q =>
        have hk' : (decExp q).isSome = true := hdec
        obtain ⟨k, hk⟩ := Option.isSome_iff_exists.mp hk'
        obtain ⟨c, cs, hc, hhead⟩ := ratToChars_head q
        show parseVal (n + 1) (ratToChars q ++ rest) = some (.num q, rest)
        rw [hc, List.cons_append, parseVal_step_num n hhead,
          ← List.cons_append, ← hc, parseNum_ratToChars hk rest hsep]
      | str s =>
        rw [show printJson (.str s) ++ rest =
            '"' :: (escapeList s.data ++ '"' :: rest) by
          simp [printJson, printStr]]
        rw [parseVal_step_str n, parseStrBody_escape]
      | arr l =>
        rw [show printJson (.arr l) ++ rest =
            '[' :: (printItems l ++ ']' :: rest) by simp [printJson]]
        rw [parseVal_step_arr n]
        cases l with
        | nil =>
          rw [show printItems ([] : List Json) ++ ']' :: rest = ']' :: rest
            from rfl]
          rw [dropWhile_cons_not (by decide)]
          dsimp only
          rw [if_pos rfl]
        | cons j js =>
          have hdec' : jsonDecimalItems (j :: js) = true := hdec
          have hsz' : jsonItemsSize (j :: js) ≤ n := by
            simp only [jsonSize] at hsz
            omega
          obtain ⟨c, t, ht, hws, hne⟩ := printItems_cons_head j js (']' :: rest)
          rw [ht, dropWhile_cons_not hws]
          dsimp only
          rw [if_neg hne, ← ht, ihI (j :: js) rest (by simp) hdec' hsz']
      | obj fs =>
        rw [show printJson (.obj fs) ++ rest =
            lbraceChar :: (printFields fs ++ rbraceChar :: rest) by
          simp [printJson]]
        rw [parseVal_step_obj n]
        cases fs with
        | nil =>
          rw [show printFields ([] : List (String × Json)) ++
              rbraceChar :: rest = rbraceChar :: rest from rfl]
          rw [dropWhile_cons_not (by decide)]
          dsimp only
          rw [if_pos rfl]
        | cons f fs' =>
          obtain ⟨k, v⟩ := f
          have hdec' : jsonDecimalFields ((k, v) :: fs') = true := hdec
          have hsz' : jsonFieldsSize ((k, v) :: fs') ≤ n := by
            simp only [jsonSize] at hsz
            omega
          obtain ⟨t, ht⟩ := printFields_cons_head k v fs' (rbraceChar :: rest)
          rw [ht, dropWhile_cons_not (by decide)]
          dsimp only
          rw [if_neg (by decide), ← ht,
            ihF ((k, v) :: fs') rest (by simp) hdec' hsz']
    · intro l rest hne hdec hsz
      cases l with
      | nil => exact absurd rfl hne
      | cons j js =>
        have hdj : jsonDecimal j = true ∧ jsonDecimalItems js = true := by
          have h : (jsonDecimal j && jsonDecimalItems js) = true := hdec
          simpa [Bool.and_eq_true] using h
        have hsj : jsonSize j ≤ n ∧ jsonItemsSize js ≤ n := by
          simp only [jsonItemsSize] at hsz
          omega
        cases js with
        | nil =>
          show parseItems (n + 1) (printJson j ++ ']' :: rest) =
            some ([j], rest)
          conv_lhs => unfold parseItems
          rw [ihV j (']' :: rest) hdj.1 hsj.1 (by rw [sepOk_cons]; decide)]
          dsimp only
          rw [dropWhile_cons_not (by decide)]
          dsimp only
          rw [if_neg (by decide), if_pos rfl]
        | cons j' js' =>
          rw [show printItems (j :: j' :: js') ++ ']' :: rest =
              printJson j ++ ',' :: (printItems (j' :: js') ++ ']' :: rest) by
            simp [printItems]]
          conv_lhs => unfold parseItems
          rw [ihV j _ hdj.1 hsj.1 (by rw [sepOk_cons]; decide)]
          dsimp only
          rw [dropWhile_cons_not (by decide)]
          dsimp only
          rw [if_pos rfl, ihI (j' :: js') rest (by simp) hdj.2 hsj.2]
    · intro l rest hne hdec hsz
      cases l with
      | nil => exact absurd rfl hne
      | cons f fs =>
        obtain ⟨k, v⟩ := f
        have hdv : jsonDecimal v = true ∧ jsonDecimalFields fs = true := by
          have h : (jsonDecimal v && jsonDecimalFields fs) = true := hdec
          simpa [Bool.and_eq_true] using h
        have hsv : jsonSize v ≤ n ∧ jsonFieldsSize fs ≤ n := by
          simp only [jsonFieldsSize] at hsz
          omega
        cases fs with
        | nil =>
          rw [show printFields [(k, v)] ++ rbraceChar :: rest =
              '"' :: (escapeList k.data ++
                '"' :: (':' :: (printJson v ++ rbraceChar :: rest))) by
            simp [printFields, printStr]]
          conv_lhs => unfold parseFields
          rw [dropWhile_cons_not (by decide)]
          dsimp only
          rw [if_pos rfl, parseStrBody_escape]
          dsimp only
          rw [dropWhile_cons_not (by decide)]
          dsimp only
          rw [if_pos rfl,
            ihV v (rbraceChar :: rest) hdv.1 hsv.1 (by rw [sepOk_cons]; decide)]
          dsimp only
          rw [dropWhile_cons_not (by decide)]
          dsimp only
          rw [if_neg (by decide), if_pos rfl]
        | cons f' fs' =>
          rw [show printFields ((k, v) :: f' :: fs') ++ rbraceChar :: rest =
              '"' :: (escapeList k.data ++ '"' :: (':' :: (printJson v ++
                ',' :: (printFields (f' :: fs') ++ rbraceChar :: rest)))) by
            simp [printFields, printStr]]
          conv_lhs => unfold parseFields
          rw [dropWhile_cons_not (by decide)]
          dsimp only
          rw [if_pos rfl, parseStrBody_escape]
          dsimp only
          rw [dropWhile_cons_not (by decide)]
          dsimp only
          rw [if_pos rfl,
            ihV v _ hdv.1 hsv.1 (by rw [sepOk_cons]; decide)]
          dsimp only
          rw [dropWhile_cons_not (by decide)]
          dsimp only
          rw [if_pos rfl, ihF (f' :: fs') rest (by simp) hdv.2 hsv.2]

/-- The fuel measure of a document is bounded by its printed length. -/
theorem size_le_print_length : ∀ fuel : Nat,
    (∀ j, jsonSize j ≤ fuel → jsonSize j ≤ (printJson j).length) ∧
    (∀ l, jsonItemsSize l ≤ fuel →
      jsonItemsSize l ≤ (printItems l).length + 1) ∧
    (∀ l, jsonFieldsSize l ≤ fuel →
      jsonFieldsSize l ≤ (printFields l).length + 1) := by
  intro fuel
  induction fuel with
  | zero =>
    refine ⟨?_, ?_, ?_⟩
    · intro j hsz
      exact absurd hsz (by have := jsonSize_pos j; omega)
    · intro l hsz
      cases l with
      | nil => simp only [jsonItemsSize]; omega
      | cons j js => simp only [jsonItemsSize] at hsz; omega
    · intro l hsz
      cases l with
      | nil => simp only [jsonFieldsSize]; omega
      | cons f fs =>
        obtain ⟨k, v⟩ := f
        simp only [jsonFieldsSize] at hsz
        omega
  | succ n ih =>
    obtain ⟨ihV, ihI, ihF⟩ := ih
    refine ⟨?_, ?_, ?_⟩
    · intro j hsz
      cases j with
      | null => decide
      | bool b => cases b <;> decide
      | num q =>
        obtain ⟨c, cs, hc, _⟩ := ratToChars_head q
        simp only [jsonSize, printJson, hc, List.length_cons]
        omega
      | str s =>
        show 1 ≤ (printJson (Json.str s)).length
        have : (printJson (Json.str s)).length =
            (escapeList s.data ++ ['"']).length + 1 := rfl
        omega
      | arr l =>
        have h1 : jsonItemsSize l ≤ n := by simp only [jsonSize] at hsz; omega
        have h2 := ihI l h1
        simp only [jsonSize, printJson, List.length_cons, List.length_append,
          List.length_singleton]
        omega
      | obj fs =>
        have h1 : jsonFieldsSize fs ≤ n := by
          simp only [jsonSize] at hsz; omega
        have h2 := ihF fs h1
        simp only [jsonSize, printJson, List.length_cons, List.length_append,
          List.length_singleton]
        omega
    · intro l hsz
      cases l with
      | nil => simp only [jsonItemsSize]; omega
      | cons j js =>
        have hj : jsonSize j ≤ n := by
          simp only [jsonItemsSize] at hsz; omega
        have h1 := ihV j hj
        cases js with
        | nil =>
          simp only [jsonItemsSize, printItems]
          omega
        | cons j' js' =>
          have hr : jsonItemsSize (j' :: js') ≤ n := by
            simp only [jsonItemsSize] at hsz ⊢; omega
          have h2 := ihI (j' :: js') hr
          simp only [jsonItemsSize] at h2 ⊢
          simp only [printItems, List.length_append, List.length_cons]
          omega
    · intro l hsz
      cases l with
      | nil => simp only [jsonFieldsSize]; omega
      | cons f fs =>
        obtain ⟨k, v⟩ := f
        have hv : jsonSize v ≤ n := by
          simp only [jsonFieldsSize] at hsz; omega
        have h1 := ihV v hv
        cases fs with
        | nil =>
          simp only [jsonFieldsSize, printFields, printStr,
            List.length_append, List.length_cons]
          omega
        | cons f' fs' =>
          have hr : jsonFieldsSize (f' :: fs') ≤ n := by
            obtain ⟨k', v'⟩ := f'
            simp only [jsonFieldsSize] at hsz ⊢; omega
          have h2 := ihF (f' :: fs') hr
          obtain ⟨k', v'⟩ := f'
          simp only [jsonFieldsSize] at h2 ⊢
          simp only [printFields, printStr, List.length_append,
            List.length_cons]
          omega

/-- Corollary of the fuel bound at the document itself. -/
theorem jsonSize_le (j : Json) : jsonSize j ≤ (printJson j).length :=
  (size_le_print_length (jsonSize j)).1 j le_rfl

/-- `JSON.parse` of `JSON.stringify` of a decimal document is the
document. -/
theorem parseJson_print (j : Json) (hdec : jsonDecimal j = true) :
    parseJson (printJson j) = some j := by
  unfold parseJson
  have hfuel : jsonSize j ≤ (printJson j).length + 1 :=
    le_trans (jsonSize_le j) (Nat.le_succ _)
  have h := (parse_print ((printJson j).length + 1)).1 j [] hdec hfuel rfl
  rw [List.append_nil] at h
  rw [h]
  rfl

theorem isValidPoint_pointToJson (p : Point) :
    isValidPoint (pointToJson p) = true := rfl

theorem points_all_valid (pts : List Point) :
    (pts.map pointToJson).all isValidPoint = true := by
  induction pts with
  | nil => rfl
  | cons p rest ih =>
    simp only [List.map_cons, List.all_cons, isValidPoint_pointToJson, ih]
    rfl

theorem nums_all_num (ps : List Rat) :
    ((ps.map Json.num).all fun p =>
      match p with
      | .num _ => true
      | _ => false) = true := by
  induction ps with
  | nil => rfl
  | cons q rest ih =>
    simp only [List.map_cons, List.all_cons, ih]
    rfl

/-- Every serialized stroke document passes `isValidStrokeData`. -/
theorem strokeToJson_valid (s : StrokeData) :
    isValidStrokeData (strokeToJson s) = true := by
  obtain ⟨id, pts, st, et, pr⟩ := s
  cases pr with
  | none =>
    have h : isValidStrokeData (strokeToJson ⟨id, pts, st, et, none⟩) =
        ((pts.map pointToJson).all isValidPoint && true) := rfl
    rw [h, Bool.and_true, points_all_valid]
  | some ps =>
    have h : isValidStrokeData (strokeToJson ⟨id, pts, st, et, some ps⟩) =
        ((pts.map pointToJson).all isValidPoint &&
          ((ps.map Json.num).all fun p =>
            match p with
            | .num _ => true
            | _ => false)) := rfl
    rw [h, points_all_valid, nums_all_num]
    rfl

/-- The validation loop accepts every serialized stroke array. -/
theorem firstInvalidIdx_map_none (i : Nat) (l : List StrokeData) :
    firstInvalidIdx i (l.map strokeToJson) = none := by
  induction l generalizing i with
  | nil => rfl
  | cons s rest ih =>
    show firstInvalidIdx i (strokeToJson s :: rest.map strokeToJson) = none
    unfold firstInvalidIdx
    rw [if_pos (strokeToJson_valid s)]
    exact ih (i + 1)

theorem pointToJson_decimal (p : Point)
    (h : (decimalRat p.x && decimalRat p.y && decimalRat p.timestamp)
      = true) :
    jsonDecimal (pointToJson p) = true := by
  simp only [Bool.and_eq_true] at h
  show (decimalRat p.x &&
    (decimalRat p.y && (decimalRat p.timestamp && true))) = true
  rw [h.1.1, h.1.2, h.2]
  rfl

theorem pointsToJson_decimal (pts : List Point)
    (h : pts.all (fun p => decimalRat p.x && decimalRat p.y &&
      decimalRat p.timestamp) = true) :
    jsonDecimalItems (pts.map pointToJson) = true := by
  induction pts with
  | nil => rfl
  | cons p rest ih =>
    simp only [List.all_cons, Bool.and_eq_true] at h
    show (jsonDecimal (pointToJson p) &&
      jsonDecimalItems (rest.map pointToJson)) = true
    rw [pointToJson_decimal p (by simp [h.1]), ih h.2]
    rfl

theorem numsToJson_decimal (ps : List Rat) (h : ps.all decimalRat = true) :
    jsonDecimalItems (ps.map Json.num) = true := by
  induction ps with
  | nil => rfl
  | cons q rest ih =>
    simp only [List.all_cons, Bool.and_eq_true] at h
    show (decimalRat q && jsonDecimalItems (rest.map Json.num)) = true
    rw [h.1, ih h.2]
    rfl

/-- Serializing a stroke with decimal numbers gives a decimal document. -/
theorem strokeToJson_decimal (s : StrokeData) (h : strokeDecimal s = true) :
    jsonDecimal (strokeToJson s) = true := by
  obtain ⟨id, pts, st, et, pr⟩ := s
  simp only [strokeDecimal, Bool.and_eq_true] at h
  cases pr with
  | none =>
    show (true && (jsonDecimalItems (pts.map pointToJson) &&
      (decimalRat st && (decimalRat et && true)))) = true
    rw [pointsToJson_decimal pts h.1.2, h.1.1.1, h.1.1.2]
    rfl
  | some ps =>
    show (true && (jsonDecimalItems (pts.map pointToJson) &&
      (decimalRat st && (decimalRat et &&
        (jsonDecimalItems (ps.map Json.num) && true))))) = true
    rw [pointsToJson_decimal pts h.1.2, h.1.1.1, h.1.1.2,
      numsToJson_decimal ps h.2]
    rfl

theorem strokesToJson_decimal (S : List StrokeData)
    (h : S.all strokeDecimal = true) :
    jsonDecimal (.arr (S.map strokeToJson)) = true := by
  show jsonDecimalItems (S.map strokeToJson) = true
  induction S with
  | nil => rfl
  | cons s rest ih =>
    simp only [List.all_cons, Bool.and_eq_true] at h
    show (jsonDecimal (strokeToJson s) &&
      jsonDecimalItems (rest.map strokeToJson)) = true
    rw [strokeToJson_decimal s h.1, ih h.2]
    rfl

theorem jsonToPoint_pointToJson (p : Point) :
    jsonToPoint (pointToJson p) = some p := rfl

theorem jsonPoints_map (pts : List Point) :
    jsonPoints (pts.map pointToJson) = some pts := by
  induction pts with
  | nil => rfl
  | cons p rest ih =>
    show jsonPoints (pointToJson p :: rest.map pointToJson) = _
    unfold jsonPoints
    rw [jsonToPoint_pointToJson, ih]

theorem jsonNums_map (ps : List Rat) :
    jsonNums (ps.map Json.num) = some ps := by
  induction ps with
  | nil => rfl
  | cons q rest ih =>
    show jsonNums (Json.num q :: rest.map Json.num) = _
    unfold jsonNums
    rw [ih]

/-- A serialized stroke document decodes field-for-field to the original
stroke. -/
theorem jsonToStroke_strokeToJson (s : StrokeData) :
    jsonToStroke (strokeToJson s) = some s := by
  obtain ⟨id, pts, st, et, pr⟩ := s
  cases pr with
  | none =>
    have h : jsonToStroke (strokeToJson ⟨id, pts, st, et, none⟩) =
        (match jsonPoints (pts.map pointToJson) with
         | some ps => some ⟨id, ps, st, et, none⟩
         | none => none) := rfl
    rw [h, jsonPoints_map]
  | some prs =>
    have h : jsonToStroke (strokeToJson ⟨id, pts, st, et, some prs⟩) =
        (match jsonPoints (pts.map pointToJson) with
         | some ps =>
           match jsonNums (prs.map Json.num) with
           | some l => some ⟨id, ps, st, et, some l⟩
           | none => none
         | none => none) := rfl
    rw [h, jsonPoints_map, jsonNums_map]

theorem decode_map (S : List StrokeData) :
    (S.map strokeToJson).map jsonToStroke = S.map some := by
  induction S with
  | nil => rfl
  | cons s rest ih =>
    simp only [List.map_cons, jsonToStroke_strokeToJson, ih]

/-- `deserialize` after `serialize` succeeds with exactly the stroke
documents. -/
theorem deserialize_serialize (S : List StrokeData)
    (h : S.all strokeDecimal = true) :
    deserialize (serialize S) = .ok (S.map strokeToJson) := by
  unfold deserialize serialize
  rw [show (String.mk (printJson (.arr (S.map strokeToJson)))).data =
      printJson (.arr (S.map strokeToJson)) from rfl]
  rw [parseJson_print _ (strokesToJson_decimal S h)]
  dsimp only
  rw [firstInvalidIdx_map_none 0 S]

/-- C2: for every stroke array `S` whose numbers are finite decimals (the
image of JavaScript's non-NaN floats), the round trip is exact:
`deserialize (serialize S)` succeeds and returns precisely the stroke
documents of `S` (including the empty and singleton arrays), each returned
document decodes field-for-field — numeric values exactly — back to the
original stroke, and `serialize S` is syntactically valid JSON (it
parses). -/
theorem c2_round_trip_exact (S : List StrokeData)
    (h : S.all strokeDecimal = true) :
    deserialize (serialize S) = .ok (S.map strokeToJson) ∧
    (S.map strokeToJson).map jsonToStroke = S.map some ∧
    parseJson (serialize S).data = some (.arr (S.map strokeToJson)) := by
  refine ⟨deserialize_serialize S h, decode_map S, ?_⟩
  show parseJson (printJson (.arr (S.map strokeToJson))) = _
  exact parseJson_print _ (strokesToJson_decimal S h)

/-- Witness for C2 at a two-stroke array (one stroke with pressure data and
a point, one empty stroke without). -/
theorem c2_round_trip_exact_witness :
    (([⟨"a", [⟨1, 2, 3⟩], 0, 7, some [4]⟩, ⟨"b", [], 1, 2, none⟩] :
        List StrokeData).all strokeDecimal = true) ∧
    deserialize (serialize [⟨"a", [⟨1, 2, 3⟩], 0, 7, some [4]⟩,
        ⟨"b", [], 1, 2, none⟩]) =
      .ok ([⟨"a", [⟨1, 2, 3⟩], 0, 7, some [4]⟩,
        ⟨"b", [], 1, 2, none⟩].map strokeToJson) :=
  ⟨by decide, (c2_round_trip_exact _ (by decide)).1⟩
